import Mathlib

set_option maxRecDepth 100000

/-!
Verification of the haystack PDF ingestion pipeline.

This file gives a shallow embedding, in Lean 4, of the core algorithms of the
repository's PDF structural-reconstruction pipeline and proves (or refutes)
the specification's claims about them:

* `src/util/pdf/pdf_splitter.py` — the token-window splitter
  (`split_pdf_by_token_window`), the margin detector
  (`HeaderFooterDetector`), the per-page crop/fallback logic
  (`clean_text_by_fixed_margins_with_tables`) and the heading-based section
  splitter (`split_pdf_by_section_headings`);
* `src/util/pdf/pdf_image_extractor.py` — short-id generation and image URLs;
* `src/util/pdf/table_formatter.py` — the table-to-text frame and the
  multi-line cell level-assignment loop (`parse_cell_structure`);
* `src/util/pdf/table_analyzer.py` — `extract_symbol_pattern`.

Modelling conventions: Python floats are modelled as rationals (`ℚ`);
machine-independent Python ints as `ℕ`; fallible code as explicit sum types.
Page text is modelled at line granularity (a page is a `List String` of its
lines, as produced by `str.splitlines`), which is exact whenever every
heading match spans whole lines, as in all concrete documents considered
here.  `hashlib.sha256(...).hexdigest()` used for duplicate detection is
modelled as the trimmed text itself (the standard no-collision
idealisation); MD5, used for image short-ids, is implemented in full.
-/

namespace Haystack

/-! ## Token-window splitter (`split_pdf_by_token_window`, pdf_splitter.py lines 574-605)

The loop

```
while start < total_tokens:
    end = min(start + window_size, total_tokens)
    ...
    start += window_size - overlap
```

is embedded as `windowsFrom`, returning the list of `(start, end)` index
pairs of the emitted chunks.  The guard `overlap < window` is part of the
recursion guard purely for termination; it matches the source whenever
`overlap < window`, which the claims assume (for `overlap ≥ window` the
Python loop would never terminate). -/

def windowsFrom (window overlap total start : ℕ) : List (ℕ × ℕ) :=
  if _h : overlap < window ∧ start < total then
    (start, min (start + window) total) ::
      windowsFrom window overlap total (start + (window - overlap))
  else []
termination_by total - start
decreasing_by
  omega

/-- All `(start_token, end_token)` pairs produced by `split_pdf_by_token_window`
for a token stream of `total` tokens. -/
def tokenWindows (window overlap total : ℕ) : List (ℕ × ℕ) :=
  windowsFrom window overlap total 0

theorem windowsFrom_pos (window overlap total start : ℕ) (h : overlap < window)
    (hlt : start < total) :
    windowsFrom window overlap total start =
      (start, min (start + window) total) ::
        windowsFrom window overlap total (start + (window - overlap)) := by
  rw [windowsFrom]
  simp [h, hlt]

theorem windowsFrom_neg (window overlap total start : ℕ)
    (h : ¬ (overlap < window ∧ start < total)) :
    windowsFrom window overlap total start = [] := by
  rw [windowsFrom]
  simp only [dif_neg h]

theorem windowsFrom_getElem? (window overlap total : ℕ) (h : overlap < window) :
    ∀ (i start : ℕ),
      (windowsFrom window overlap total start)[i]? =
        if start + i * (window - overlap) < total then
          some (start + i * (window - overlap),
                min (start + i * (window - overlap) + window) total)
        else none := by
  intro i
  induction i with
  | zero =>
    intro start
    by_cases hlt : start < total
    · rw [windowsFrom_pos window overlap total start h hlt]
      simp [hlt]
    · rw [windowsFrom_neg window overlap total start (by tauto)]
      simp only [List.getElem?_nil]
      rw [if_neg (by omega)]
  | succ n ih =>
    intro start
    by_cases hlt : start < total
    · rw [windowsFrom_pos window overlap total start h hlt]
      simp only [List.getElem?_cons_succ]
      rw [ih (start + (window - overlap))]
      have : start + (window - overlap) + n * (window - overlap) =
          start + (n + 1) * (window - overlap) := by ring
      rw [this]
    · rw [windowsFrom_neg window overlap total start (by tauto)]
      simp only [List.getElem?_nil]
      rw [if_neg (by omega)]

theorem windowsFrom_covers (window overlap total : ℕ) (h : overlap < window) :
    ∀ (n start t : ℕ), total - start = n → start ≤ t → t < total →
      ∃ p ∈ windowsFrom window overlap total start, p.1 ≤ t ∧ t < p.2 := by
  intro n
  induction n using Nat.strong_induction_on with
  | _ n ih =>
    intro start t hn hst htt
    have hlt : start < total := lt_of_le_of_lt hst htt
    rw [windowsFrom_pos window overlap total start h hlt]
    by_cases hend : t < min (start + window) total
    · exact ⟨(start, min (start + window) total), by simp, hst, hend⟩
    · have ht2 : start + window ≤ t := by
        rcases Nat.lt_or_ge t (start + window) with h1 | h1
        · exfalso; exact hend (lt_min h1 htt)
        · exact h1
      have hstep : start + (window - overlap) ≤ t := by omega
      obtain ⟨p, hp, hp1, hp2⟩ :=
        ih (total - (start + (window - overlap))) (by omega)
          (start + (window - overlap)) t rfl hstep htt
      exact ⟨p, by simp [hp], hp1, hp2⟩

theorem windowsFrom_mem_lt (window overlap total : ℕ) :
    ∀ (n start : ℕ), total - start = n →
      ∀ p ∈ windowsFrom window overlap total start, p.1 < total ∧ p.2 ≤ total := by
  intro n
  induction n using Nat.strong_induction_on with
  | _ n ih
  =>
    intro start hn p hp
    by_cases hc : overlap < window ∧ start < total
    · rw [windowsFrom_pos window overlap total start hc.1 hc.2] at hp
      rcases List.mem_cons.mp hp with rfl | hp
      · exact ⟨hc.2, min_le_right _ _⟩
      · exact ih (total - (start + (window - overlap))) (by omega)
          (start + (window - overlap)) rfl p hp
    · rw [windowsFrom_neg window overlap total start hc] at hp
      simp at hp

/-- Claim C5 (amended): for a token stream with `0 < total` tokens and window
parameters `0 < overlap < window`, the token-window splitter emits windows
with start indices `0, (window-overlap), 2*(window-overlap), ...` and ends
`min(start + window, total)`; the union of the `[start, end)` ranges covers
`[0, total)` with no gaps; every adjacent pair of windows whose earlier
window is not truncated by the end of the stream (`start + window ≤ total`)
overlaps by exactly `overlap` tokens; and the loop terminates with every
emitted start below the total token count.  (The unamended claim asserted
the exact-`overlap` property for every adjacent pair except the final
window; that fails once a non-final window already reaches the end of the
stream, see the counterexample.) -/
theorem C5_token_windows_amended (window overlap total : ℕ)
    (ho : 0 < overlap) (how : overlap < window) (htot : 0 < total) :
    (∀ i : ℕ,
      (tokenWindows window overlap total)[i]? =
        if i * (window - overlap) < total then
          some (i * (window - overlap),
                min (i * (window - overlap) + window) total)
        else none)
    ∧ (∀ t < total, ∃ p ∈ tokenWindows window overlap total, p.1 ≤ t ∧ t < p.2)
    ∧ (∀ i a b c d,
        (tokenWindows window overlap total)[i]? = some (a, b) →
        (tokenWindows window overlap total)[i + 1]? = some (c, d) →
        a + window ≤ total → b - c = overlap)
    ∧ (∀ p ∈ tokenWindows window overlap total, p.1 < total ∧ p.2 ≤ total) := by
  refine ⟨?_, ?_, ?_, ?_⟩
  · intro i
    have := windowsFrom_getElem? window overlap total how i 0
    simpa using this
  · intro t ht
    exact windowsFrom_covers window overlap total how total 0 t (by omega)
      (Nat.zero_le t) ht
  · intro i a b c d hab hcd hfit
    have h1 := windowsFrom_getElem? window overlap total how i 0
    have h2 := windowsFrom_getElem? window overlap total how (i + 1) 0
    simp only [Nat.zero_add, tokenWindows] at h1 h2 hab hcd
    rw [h1] at hab
    rw [h2] at hcd
    by_cases hi : i * (window - overlap) < total
    · rw [if_pos hi] at hab
      by_cases hj : (i + 1) * (window - overlap) < total
      · rw [if_pos hj] at hcd
        have ha : a = i * (window - overlap) := by
          have := hab
          injection this with h'
          exact (congrArg Prod.fst h').symm
        have hb : b = min (i * (window - overlap) + window) total := by
          injection hab with h'
          exact (congrArg Prod.snd h').symm
        have hc : c = (i + 1) * (window - overlap) := by
          injection hcd with h'
          exact (congrArg Prod.fst h').symm
        subst ha
        subst hb
        subst hc
        have hmin : min (i * (window - overlap) + window) total
            = i * (window - overlap) + window := by
          omega
        rw [hmin]
        have hexp : (i + 1) * (window - overlap)
            = i * (window - overlap) + (window - overlap) := by ring
        omega
      · rw [if_neg hj] at hcd
        exact absurd hcd (by simp)
    · rw [if_neg hi] at hab
      exact absurd hab (by simp)
  · intro p hp
    exact windowsFrom_mem_lt window overlap total total 0 (by omega) p hp

/-- Witness for C5 (amended), at `window = 5`, `overlap = 2`, `total = 7`:
coverage of token 6 by some emitted window. -/
theorem C5_token_windows_amended_witness :
    ∃ p ∈ tokenWindows 5 2 7, p.1 ≤ 6 ∧ 6 < p.2 :=
  (C5_token_windows_amended 5 2 7 (by norm_num) (by norm_num)
    (by norm_num)).2.1 6 (by norm_num)

/-- Claim C5, counterexample: with `window = 4`, `overlap = 3`,
`total = 3` tokens, the emitted windows are `(0,3), (1,3), (2,3)`; the
adjacent pair at indices 0 and 1 — of which neither is the final window —
overlaps by `3 - 1 = 2 ≠ 3 = overlap` tokens, refuting the claim that every
adjacent pair except the final window overlaps by exactly `overlap`. -/
theorem C5_token_windows_counterexample :
    tokenWindows 4 3 3 = [(0, 3), (1, 3), (2, 3)] ∧ 3 - 1 ≠ 3 := by
  have h0 : windowsFrom 4 3 3 0 = (0, 3) :: windowsFrom 4 3 3 1 := by
    rw [windowsFrom_pos 4 3 3 0 (by norm_num) (by norm_num)]; norm_num
  have h1 : windowsFrom 4 3 3 1 = (1, 3) :: windowsFrom 4 3 3 2 := by
    rw [windowsFrom_pos 4 3 3 1 (by norm_num) (by norm_num)]; norm_num
  have h2 : windowsFrom 4 3 3 2 = (2, 3) :: windowsFrom 4 3 3 3 := by
    rw [windowsFrom_pos 4 3 3 2 (by norm_num) (by norm_num)]; norm_num
  have h3 : windowsFrom 4 3 3 3 = [] := windowsFrom_neg 4 3 3 3 (by omega)
  refine ⟨?_, by norm_num⟩
  rw [tokenWindows, h0, h1, h2, h3]

/-! ## Python string helpers

`pyIsSpace` models the characters stripped by Python's `str.strip()` (the
ASCII whitespace characters; the rarely-occurring non-ASCII Unicode spaces
are not modelled).  `pyStrip` models `str.strip()` itself. -/

def pyIsSpace (c : Char) : Bool :=
  c == ' ' || c == '\t' || c == '\n' || c == '\r' || c == '\x0b' || c == '\x0c'

def dropLeadingWS : List Char → List Char
  | [] => []
  | c :: cs => if pyIsSpace c then dropLeadingWS cs else c :: cs

def pyStripChars (l : List Char) : List Char :=
  (dropLeadingWS (dropLeadingWS l).reverse).reverse

def pyStrip (s : String) : String :=
  ⟨pyStripChars s.data⟩

/-- Model of Python's `str(n)` for a natural number. -/
def natToStrAux : ℕ → ℕ → List Char
  | 0, _ => []
  | fuel + 1, n =>
    if n < 10 then [Char.ofNat (48 + n)]
    else natToStrAux fuel (n / 10) ++ [Char.ofNat (48 + n % 10)]

def natToStr (n : ℕ) : String :=
  ⟨natToStrAux (n + 1) n⟩

theorem char_ofNat_digit (d : ℕ) (hd : d < 10) :
    (Char.ofNat (48 + d)).isDigit = true := by
  interval_cases d <;> decide

theorem natToStrAux_digits (fuel n : ℕ) :
    ∀ c ∈ natToStrAux fuel n, c.isDigit = true := by
  induction fuel generalizing n with
  | zero => intro c hc; simp [natToStrAux] at hc
  | succ fuel ih =>
    intro c hc
    rw [natToStrAux] at hc
    by_cases h10 : n < 10
    · rw [if_pos h10] at hc
      simp at hc
      subst hc
      exact char_ofNat_digit n h10
    · rw [if_neg h10] at hc
      rcases List.mem_append.mp hc with hc | hc
      · exact ih (n / 10) c hc
      · simp at hc
        subst hc
        exact char_ofNat_digit (n % 10) (Nat.mod_lt n (by norm_num))


/-! ## Per-page crop / fallback logic
(`clean_text_by_fixed_margins_with_tables`, pdf_splitter.py lines 497-535)

For each page the code crops to the margin box and extracts text inside a
`try`.  `CropResult.ok t` models a successful extraction returning `t`
(possibly empty); `CropResult.failed` models an exception raised inside the
`try`, in which case the code falls back to `page.extract_text() or ""`,
modelled by the page's `fullText` field.  The image-map insertion step is
omitted (it is skipped exactly when `image_map` is `None`, the case
modelled here).  The condition
`if not page_content or len(page_content.strip()) == 0` is equivalent to
`t.trim = ""`. -/

inductive CropResult where
  | ok (text : String)
  | failed
  deriving DecidableEq, Repr

def croppingFailedMarker : String := "[CROPPING FAILED]"

def pageContentOf (crop : CropResult) (fullText : String) : String :=
  match crop with
  | .ok t => if pyStrip t = "" then croppingFailedMarker else t
  | .failed => fullText

/-- The `cleaned_pages` list built by the per-page loop: one entry per page,
stripped. -/
def cleanedPages (pages : List (CropResult × String)) : List String :=
  pages.map (fun p => pyStrip (pageContentOf p.1 p.2))

/-- Claim C2, counterexample: on a page whose crop succeeds but yields empty
text, the page's output is the placeholder string `"[CROPPING FAILED]"`,
not the uncropped extraction (here `"원본 본문"`), refuting the claim that
the code falls back to the full uncropped page's text in this case. -/
theorem C2_crop_fallback_counterexample :
    pageContentOf (CropResult.ok "") "원본 본문" = "[CROPPING FAILED]" ∧
      pageContentOf (CropResult.ok "") "원본 본문" ≠ "원본 본문" := by
  constructor
  · decide
  · decide

/-- Claim C2 (amended): for every page, the pipeline continues non-fatally
(exactly one output entry per page); a page whose crop succeeds but yields
empty (or whitespace-only) text produces the placeholder
`"[CROPPING FAILED]"`, not the uncropped extraction; the full uncropped
page text is used only when cropping raises an exception. -/
theorem C2_crop_fallback_amended (pages : List (CropResult × String)) :
    (cleanedPages pages).length = pages.length
    ∧ (∀ (i : ℕ) t full, pages[i]? = some (CropResult.ok t, full) →
        pyStrip t = "" → (cleanedPages pages)[i]? = some croppingFailedMarker)
    ∧ (∀ (i : ℕ) full, pages[i]? = some (CropResult.failed, full) →
        (cleanedPages pages)[i]? = some (pyStrip full)) := by
  refine ⟨by simp [cleanedPages], ?_, ?_⟩
  · intro i t full hi ht
    have hm : (cleanedPages pages)[i]? =
        pages[i]?.map (fun p => pyStrip (pageContentOf p.1 p.2)) := by
      simp [cleanedPages]
    rw [hm, hi]
    simp only [Option.map_some']
    have h1 : pageContentOf (CropResult.ok t) full = croppingFailedMarker := by
      simp [pageContentOf, ht]
    rw [h1]
    have h2 : pyStrip croppingFailedMarker = croppingFailedMarker := by decide
    rw [h2]
  · intro i full hi
    have hm : (cleanedPages pages)[i]? =
        pages[i]?.map (fun p => pyStrip (pageContentOf p.1 p.2)) := by
      simp [cleanedPages]
    rw [hm, hi]
    rfl

/-- Witness for C2 (amended): on a two-page document where page 0 crops to
empty text and page 1 raises, the outputs are the placeholder and the
stripped full text respectively. -/
theorem C2_crop_fallback_amended_witness :
    (cleanedPages [(CropResult.ok "  ", "머리글"),
        (CropResult.failed, " 본문 전체 ")])[0]? = some croppingFailedMarker
    ∧ (cleanedPages [(CropResult.ok "  ", "머리글"),
        (CropResult.failed, " 본문 전체 ")])[1]? =
          some (pyStrip " 본문 전체 ") := by
  constructor
  · exact (C2_crop_fallback_amended
      [(CropResult.ok "  ", "머리글"), (CropResult.failed, " 본문 전체 ")]).2.1
      0 "  " "머리글" (by rfl) (by decide)
  · exact (C2_crop_fallback_amended
      [(CropResult.ok "  ", "머리글"), (CropResult.failed, " 본문 전체 ")]).2.2
      1 " 본문 전체 " (by rfl)

/-! ## Image store filenames and URLs
(`extract_images_from_pdf`, pdf_image_extractor.py lines 87-94 and 156-161)

An accepted image with short id `short_id` is saved as
`image_store/{short_id}.png` but recorded in the image map under the URL
`http://192.168.10.101:8001/images/{short_id}` — without the `.png`
extension. -/

def imageStoreDir : String := "image_store"

def dstFilename (shortId : String) : String := shortId ++ ".png"

def imageUrl (shortId : String) : String :=
  "http://192.168.10.101:8001/images/" ++ shortId

/-- `strEndsWith s suf` holds when `suf` is a suffix of `s` (character-wise). -/
def strEndsWith (s suf : String) : Bool :=
  suf.data.isSuffixOf s.data

theorem strEndsWith_iff (s suf : String) :
    strEndsWith s suf = true ↔ suf.data <:+ s.data := by
  simp [strEndsWith, List.isSuffixOf_iff_suffix]

/-- Claim C6, counterexample: for the accepted image with short id
`"abc12345"`, the persisted file is `"abc12345.png"` but the URL recorded in
the image map is `"http://192.168.10.101:8001/images/abc12345"`, which does
not end with the persisted file's name (it lacks the `.png` extension). -/
theorem C6_image_url_counterexample :
    imageUrl "abc12345" = "http://192.168.10.101:8001/images/abc12345"
    ∧ dstFilename "abc12345" = "abc12345.png"
    ∧ strEndsWith (imageUrl "abc12345") ".png" = false
    ∧ strEndsWith (imageUrl "abc12345") (dstFilename "abc12345") = false := by
  refine ⟨rfl, rfl, by decide, by decide⟩

/-- Claim C6 (amended): for every accepted image, the persisted file name is
`{short_id}.png` (and so ends in `.png`), while the URL recorded in the
returned image map has the form `{base_url}/images/{short_id}` — it ends
with the short id but not with the `.png` extension. -/
theorem C6_image_url_amended (sid : String) (h8 : sid.data.length = 8)
    (hdot : '.' ∉ sid.data) :
    strEndsWith (dstFilename sid) ".png" = true
    ∧ strEndsWith (imageUrl sid) sid = true
    ∧ strEndsWith (imageUrl sid) ".png" = false := by
  refine ⟨?_, ?_, ?_⟩
  · rw [strEndsWith_iff]
    refine ⟨sid.data, ?_⟩
    simp [dstFilename]
  · rw [strEndsWith_iff]
    refine ⟨("http://192.168.10.101:8001/images/").data, ?_⟩
    simp [imageUrl]
  · rw [Bool.eq_false_iff]
    intro hcon
    rw [strEndsWith_iff] at hcon
    have hs : sid.data <:+ (imageUrl sid).data := by
      refine ⟨("http://192.168.10.101:8001/images/").data, ?_⟩
      simp [imageUrl]
    rcases List.suffix_or_suffix_of_suffix hcon hs with hps | hps
    · have : '.' ∈ sid.data := hps.subset (by decide)
      exact hdot this
    · have := hps.length_le
      simp [h8] at this

/-- Witness for C6 (amended), at the concrete short id `"abc12345"`. -/
theorem C6_image_url_amended_witness :
    strEndsWith (dstFilename "abc12345") ".png" = true
    ∧ strEndsWith (imageUrl "abc12345") "abc12345" = true
    ∧ strEndsWith (imageUrl "abc12345") ".png" = false :=
  C6_image_url_amended "abc12345" (by decide) (by decide)

/-! ## Image short ids (`generate_short_id`, pdf_image_extractor.py lines 8-15)

```
content = f"{doc_id}_{page_num}_{img_index}_{os.urandom(8).hex()}"
return hashlib.md5(content.encode()).hexdigest()[:8]
```

MD5 is implemented in full below (RFC 1321), over the UTF-8 bytes of the
content string, on `ℕ` with explicit reduction modulo `2^32`.  The draw
`os.urandom(8).hex()` is modelled by an explicit 16-hex-character argument
`urandomHex`. -/

def w32mod : ℕ := 4294967296

def add32 (a b : ℕ) : ℕ := (a + b) % w32mod

def not32 (a : ℕ) : ℕ := 4294967295 - a % w32mod

def rotl32 (x s : ℕ) : ℕ :=
  (x % w32mod) * 2 ^ s % w32mod + x % w32mod / 2 ^ (32 - s)

def md5K : List ℕ := [
  3614090360, 3905402710, 606105819, 3250441966,
  4118548399, 1200080426, 2821735955, 4249261313,
  1770035416, 2336552879, 4294925233, 2304563134,
  1804603682, 4254626195, 2792965006, 1236535329,
  4129170786, 3225465664, 643717713, 3921069994,
  3593408605, 38016083, 3634488961, 3889429448,
  568446438, 3275163606, 4107603335, 1163531501,
  2850285829, 4243563512, 1735328473, 2368359562,
  4294588738, 2272392833, 1839030562, 4259657740,
  2763975236, 1272893353, 4139469664, 3200236656,
  681279174, 3936430074, 3572445317, 76029189,
  3654602809, 3873151461, 530742520, 3299628645,
  4096336452, 1126891415, 2878612391, 4237533241,
  1700485571, 2399980690, 4293915773, 2240044497,
  1873313359, 4264355552, 2734768916, 1309151649,
  4149444226, 3174756917, 718787259, 3951481745
]

def md5S : List ℕ := [
  7, 12, 17, 22, 7, 12, 17, 22,
  7, 12, 17, 22, 7, 12, 17, 22,
  5, 9, 14, 20, 5, 9, 14, 20,
  5, 9, 14, 20, 5, 9, 14, 20,
  4, 11, 16, 23, 4, 11, 16, 23,
  4, 11, 16, 23, 4, 11, 16, 23,
  6, 10, 15, 21, 6, 10, 15, 21,
  6, 10, 15, 21, 6, 10, 15, 21
]

def md5F (i b c d : ℕ) : ℕ :=
  if i < 16 then Nat.lor (Nat.land b c) (Nat.land (not32 b) d)
  else if i < 32 then Nat.lor (Nat.land d b) (Nat.land (not32 d) c)
  else if i < 48 then Nat.xor (Nat.xor b c) d
  else Nat.xor c (Nat.lor b (not32 d))

def md5G (i : ℕ) : ℕ :=
  if i < 16 then i
  else if i < 32 then (5 * i + 1) % 16
  else if i < 48 then (3 * i + 5) % 16
  else (7 * i) % 16

/-- One 64-byte block, as 16 little-endian 32-bit words. -/
def bytesToWords : List ℕ → List ℕ
  | b0 :: b1 :: b2 :: b3 :: rest =>
    (b0 + 256 * b1 + 65536 * b2 + 16777216 * b3) :: bytesToWords rest
  | _ => []

def md5Round (m : List ℕ) (st : ℕ × ℕ × ℕ × ℕ) (i : ℕ) : ℕ × ℕ × ℕ × ℕ :=
  match st with
  | (a, b, c, d) =>
    let f := add32 (add32 (add32 (md5F i b c d) a) (md5K.getD i 0))
      (m.getD (md5G i) 0)
    (d, add32 b (rotl32 f (md5S.getD i 0)), b, c)

def md5ProcessBlock (st : ℕ × ℕ × ℕ × ℕ) (block : List ℕ) : ℕ × ℕ × ℕ × ℕ :=
  let m := bytesToWords block
  match (List.range 64).foldl (md5Round m) st with
  | (a, b, c, d) =>
    match st with
    | (a0, b0, c0, d0) => (add32 a0 a, add32 b0 b, add32 c0 c, add32 d0 d)

def md5Chunks : ℕ → List ℕ → List (List ℕ)
  | 0, _ => []
  | _ + 1, [] => []
  | fuel + 1, l => l.take 64 :: md5Chunks fuel (l.drop 64)

/-- MD5 padding: a `0x80` byte, zeros to 56 mod 64, then the bit length as
8 little-endian bytes. -/
def md5Pad (msg : List ℕ) : List ℕ :=
  let len := msg.length
  let zeros := (119 - len % 64) % 64
  let bitLen := len * 8
  msg ++ [128] ++ List.replicate zeros 0 ++
    (List.range 8).map (fun i => bitLen / 2 ^ (8 * i) % 256)

def hexChar (d : ℕ) : Char :=
  if d < 10 then Char.ofNat (48 + d) else Char.ofNat (87 + d)

def byteToHex (b : ℕ) : List Char :=
  [hexChar (b / 16), hexChar (b % 16)]

def wordLEHex (w : ℕ) : List Char :=
  byteToHex (w % 256) ++ byteToHex (w / 256 % 256) ++
    byteToHex (w / 65536 % 256) ++ byteToHex (w / 16777216 % 256)

def md5HexChars (msg : List ℕ) : List Char :=
  let padded := md5Pad msg
  match (md5Chunks (padded.length + 1) padded).foldl md5ProcessBlock
      (1732584193, 4023233417, 2562383102, 271733878) with
  | (a, b, c, d) => wordLEHex a ++ wordLEHex b ++ wordLEHex c ++ wordLEHex d

/-- UTF-8 encoding of one character, as byte values. -/
def utf8Bytes (c : Char) : List ℕ :=
  let n := c.toNat
  if n < 128 then [n]
  else if n < 2048 then [192 + n / 64, 128 + n % 64]
  else if n < 65536 then [224 + n / 4096, 128 + n / 64 % 64, 128 + n % 64]
  else [240 + n / 262144, 128 + n / 4096 % 64, 128 + n / 64 % 64, 128 + n % 64]

def strBytes (s : String) : List ℕ :=
  s.data.flatMap utf8Bytes

def md5Hexdigest (s : String) : String :=
  ⟨md5HexChars (strBytes s)⟩

/-- RFC 1321 / `hashlib` test vector: MD5 of the empty string. -/
theorem md5_empty_vector :
    md5Hexdigest "" = "d41d8cd98f00b204e9800998ecf8427e" := by decide

/-- RFC 1321 / `hashlib` test vector: MD5 of `"abc"`. -/
theorem md5_abc_vector :
    md5Hexdigest "abc" = "900150983cd24fb0d6963f7d28e17f72" := by decide

/-- The string fed to MD5 by `generate_short_id`:
`f"{doc_id}_{page_num}_{img_index}_{os.urandom(8).hex()}"`. -/
def shortIdContent (docId : String) (pageNum imgIndex : ℕ)
    (urandomHex : String) : String :=
  docId ++ "_" ++ natToStr pageNum ++ "_" ++ natToStr imgIndex ++ "_" ++
    urandomHex

def generate_short_id (docId : String) (pageNum imgIndex : ℕ)
    (urandomHex : String) : String :=
  ⟨(md5HexChars (strBytes
      (shortIdContent docId pageNum imgIndex urandomHex))).take 8⟩

/-- Claim C7, counterexample: two extraction runs on the same document with
the same `doc_id` (`"doc"`), for the same image (page 1, saved-image index
1), draw different `os.urandom(8)` values and hence persist the image under
different short ids — `"f37aecea"` versus `"cc35f6e1"` — so filenames and
URLs are not stable across runs and the id is not content-addressed. -/
theorem C7_short_id_counterexample :
    generate_short_id "doc" 1 1 "0000000000000000" = "f37aecea"
    ∧ generate_short_id "doc" 1 1 "ffffffffffffffff" = "cc35f6e1"
    ∧ generate_short_id "doc" 1 1 "0000000000000000" ≠
        generate_short_id "doc" 1 1 "ffffffffffffffff" := by
  refine ⟨by decide, by decide, by decide⟩

/-- Claim C7 (amended): the short id is the first 8 hex characters of the
MD5 of `{doc_id}_{page}_{img_index}_{urandom8.hex()}`.  It is positional
and randomized rather than content-addressed: the hash input never depends
on the image bytes, and for fixed `doc_id`, page and index it determines —
and is determined by — the fresh random draw, so two runs with distinct
draws feed distinct strings to MD5. -/
theorem C7_short_id_amended (docId : String) (pageNum imgIndex : ℕ)
    (r1 r2 : String) :
    shortIdContent docId pageNum imgIndex r1 =
      shortIdContent docId pageNum imgIndex r2 ↔ r1 = r2 := by
  constructor
  · intro h
    have hd := congrArg String.data h
    simp only [shortIdContent, String.data_append] at hd
    have := List.append_cancel_left hd
    exact String.ext this
  · intro h
    rw [h]

/-- Witness for C7 (amended), at concrete values. -/
theorem C7_short_id_amended_witness :
    shortIdContent "doc" 1 1 "aabbccdd00112233" =
      shortIdContent "doc" 1 1 "aabbccdd00112233" :=
  (C7_short_id_amended "doc" 1 1 "aabbccdd00112233" "aabbccdd00112233").mpr
    rfl

/-! ## Margin detector
(`HeaderFooterDetector._set_regions_from_separator_lines` and
`HeaderFooterDetector.get_margin_ratios`, pdf_splitter.py lines 273-321 and
445-462)

Per page on which the chosen header separator line was found, the code
computes `min((y_end + dynamic_margin) / page_height, 0.3)`; per page with
the footer separator,
`min((page_height - (y_start - dynamic_margin)) / page_height, 0.3)`, with
`dynamic_margin = max(page_height * 0.01, 10)`.  `get_margin_ratios`
returns the averages of the per-page values, or `0.0` for a side whose
separator was not found on any page.  A page is modelled by its height and
the relevant vertical coordinate of the separator line (`y_end` for the
header, `y_start` for the footer). -/

def dynamicMargin (pageHeight : ℚ) : ℚ :=
  max (pageHeight * (1 / 100)) 10

def headerMarginFrac (pageHeight yEnd : ℚ) : ℚ :=
  min ((yEnd + dynamicMargin pageHeight) / pageHeight) (3 / 10)

def footerMarginFrac (pageHeight yStart : ℚ) : ℚ :=
  min ((pageHeight - (yStart - dynamicMargin pageHeight)) / pageHeight) (3 / 10)

def headerRegions (headerData : List (ℚ × ℚ)) : List ℚ :=
  headerData.map (fun p => headerMarginFrac p.1 p.2)

def footerRegions (footerData : List (ℚ × ℚ)) : List ℚ :=
  footerData.map (fun p => footerMarginFrac p.1 p.2)

/-- Average of a list of rationals, `0` for the empty list (the
`if self.header_regions: ... else 0.0` logic of `get_margin_ratios`). -/
def avgQ (l : List ℚ) : ℚ :=
  if l = [] then 0 else l.sum / (l.length : ℚ)

/-- The pair returned by `get_margin_ratios`. -/
def getMarginAvgs (headerData footerData : List (ℚ × ℚ)) : ℚ × ℚ :=
  (avgQ (headerRegions headerData), avgQ (footerRegions footerData))

theorem avgQ_bounds (l : List ℚ) (b : ℚ) (hb : 0 ≤ b)
    (h : ∀ x ∈ l, 0 ≤ x ∧ x ≤ b) : 0 ≤ avgQ l ∧ avgQ l ≤ b := by
  rcases eq_or_ne l [] with rfl | hne
  · simp [avgQ, hb]
  · have hlen : (0 : ℚ) < (l.length : ℚ) := by
      have : l.length ≠ 0 := by simpa using hne
      exact_mod_cast Nat.pos_of_ne_zero this
    have hsum0 : 0 ≤ l.sum := List.sum_nonneg (fun x hx => (h x hx).1)
    have hsumb : l.sum ≤ (l.length : ℚ) * b := by
      calc l.sum ≤ l.length • b := List.sum_le_card_nsmul l b (fun x hx => (h x hx).2)
      _ = (l.length : ℚ) * b := by simp [nsmul_eq_mul]
    rw [avgQ, if_neg hne]
    constructor
    · exact div_nonneg hsum0 (le_of_lt hlen)
    · rw [div_le_iff hlen]
      linarith

theorem headerMarginFrac_bounds (pageHeight yEnd : ℚ) (hh : 0 < pageHeight)
    (hy : 0 ≤ yEnd) : 0 ≤ headerMarginFrac pageHeight yEnd ∧
      headerMarginFrac pageHeight yEnd ≤ 3 / 10 := by
  have hdm : (0 : ℚ) < dynamicMargin pageHeight :=
    lt_of_lt_of_le (by norm_num) (le_max_right _ _)
  refine ⟨le_min (div_nonneg (by linarith) (le_of_lt hh)) (by norm_num), ?_⟩
  exact min_le_right _ _

theorem footerMarginFrac_bounds (pageHeight yStart : ℚ) (hh : 0 < pageHeight)
    (hy : yStart ≤ pageHeight) : 0 ≤ footerMarginFrac pageHeight yStart ∧
      footerMarginFrac pageHeight yStart ≤ 3 / 10 := by
  have hdm : (0 : ℚ) < dynamicMargin pageHeight :=
    lt_of_lt_of_le (by norm_num) (le_max_right _ _)
  refine ⟨le_min (div_nonneg (by linarith) (le_of_lt hh)) (by norm_num), ?_⟩
  exact min_le_right _ _

/-- Claim C8 (confirmed): provided every page has positive height and the
separator-line coordinates lie on the page (`0 ≤ y_end` for headers,
`y_start ≤ page_height` for footers), every per-page header/footer margin
fraction lies in `[0, 3/10]`, and therefore so do both components of the
pair returned by `get_margin_ratios` (per-page averages, or `0` when no
separator cluster was found). -/
theorem C8_margin_bounds (headerData footerData : List (ℚ × ℚ))
    (hh : ∀ p ∈ headerData, 0 < p.1 ∧ 0 ≤ p.2)
    (hf : ∀ p ∈ footerData, 0 < p.1 ∧ p.2 ≤ p.1) :
    (∀ r ∈ headerRegions headerData, 0 ≤ r ∧ r ≤ 3 / 10)
    ∧ (∀ r ∈ footerRegions footerData, 0 ≤ r ∧ r ≤ 3 / 10)
    ∧ (0 ≤ (getMarginAvgs headerData footerData).1
        ∧ (getMarginAvgs headerData footerData).1 ≤ 3 / 10)
    ∧ (0 ≤ (getMarginAvgs headerData footerData).2
        ∧ (getMarginAvgs headerData footerData).2 ≤ 3 / 10) := by
  have hH : ∀ r ∈ headerRegions headerData, 0 ≤ r ∧ r ≤ 3 / 10 := by
    intro r hr
    rw [headerRegions, List.mem_map] at hr
    obtain ⟨p, hp, rfl⟩ := hr
    exact headerMarginFrac_bounds p.1 p.2 (hh p hp).1 (hh p hp).2
  have hF : ∀ r ∈ footerRegions footerData, 0 ≤ r ∧ r ≤ 3 / 10 := by
    intro r hr
    rw [footerRegions, List.mem_map] at hr
    obtain ⟨p, hp, rfl⟩ := hr
    exact footerMarginFrac_bounds p.1 p.2 (hf p hp).1 (hf p hp).2
  exact ⟨hH, hF, avgQ_bounds _ _ (by norm_num) hH, avgQ_bounds _ _ (by norm_num) hF⟩

/-- Witness for C8, on a one-page document of height 800 with a header
separator line ending at `y = 50` and a footer separator line starting at
`y = 760`. -/
theorem C8_margin_bounds_witness :
    (0 ≤ (getMarginAvgs [(800, 50)] [(800, 760)]).1
      ∧ (getMarginAvgs [(800, 50)] [(800, 760)]).1 ≤ 3 / 10)
    ∧ (0 ≤ (getMarginAvgs [(800, 50)] [(800, 760)]).2
      ∧ (getMarginAvgs [(800, 50)] [(800, 760)]).2 ≤ 3 / 10) :=
  ⟨(C8_margin_bounds [(800, 50)] [(800, 760)]
      (by intro p hp; simp at hp; rw [hp]; norm_num)
      (by intro p hp; simp at hp; rw [hp]; norm_num)).2.2.1,
   (C8_margin_bounds [(800, 50)] [(800, 760)]
      (by intro p hp; simp at hp; rw [hp]; norm_num)
      (by intro p hp; simp at hp; rw [hp]; norm_num)).2.2.2⟩

/-! ## Table-to-text frame
(`table_to_text` and `table_to_text_with_positions`, table_formatter.py
lines 14-19 and 22-97)

`strJoin` models Python's `str.join`.  `natToStr` models Python's `str(n)`
for a natural number (used inside the marker f-strings).  The body
parameter abstracts lines 50-77 of `table_to_text_with_positions` (header
detection and row rendering), which contribute exactly the middle elements
of `text_parts`; the frame — the empty-grid early return, the start/end
markers and the final `'<br>'.join(text_parts)` — is translated from lines
27-48, 79 and 95-97.  `table_to_text` (lines 14-19) delegates to the
enhanced version. -/

def strJoin (sep : String) : List String → String
  | [] => ""
  | [x] => x
  | x :: y :: xs => x ++ sep ++ strJoin sep (y :: xs)

def tableStartMarker (tableNum pageNum : ℕ) : String :=
  "[표 " ++ natToStr tableNum ++ " - 페이지 " ++ natToStr pageNum ++ " 시작]"

def tableEndMarker (tableNum pageNum : ℕ) : String :=
  "[표 " ++ natToStr tableNum ++ " - 페이지 " ++ natToStr pageNum ++ " 끝]"

def tableToTextWithPositions (body : List (List String) → List String)
    (data : List (List String)) (tableNum pageNum : ℕ) : String :=
  if data = [] then ""
  else
    strJoin "<br>"
      ([tableStartMarker tableNum pageNum] ++ body data
        ++ [tableEndMarker tableNum pageNum])

def table_to_text (body : List (List String) → List String)
    (data : List (List String)) (tableNum pageNum : ℕ) : String :=
  tableToTextWithPositions body data tableNum pageNum

theorem strJoin_head (sep x : String) (xs : List String) :
    ∃ r, strJoin sep (x :: xs) = x ++ r := by
  cases xs with
  | nil => exact ⟨"", by simp [strJoin]⟩
  | cons y ys => exact ⟨sep ++ strJoin sep (y :: ys), by simp [strJoin, String.append_assoc]⟩

theorem strJoin_last (sep x : String) (xs : List String) :
    ∃ f, strJoin sep (xs ++ [x]) = f ++ x := by
  induction xs with
  | nil => exact ⟨"", by simp [strJoin]⟩
  | cons y ys ih =>
    obtain ⟨f, hf⟩ := ih
    cases ys with
    | nil =>
      exact ⟨y ++ sep, by simp [strJoin, String.append_assoc]⟩
    | cons z zs =>
      refine ⟨y ++ sep ++ f, ?_⟩
      have : (y :: (z :: zs) ++ [x]) = y :: ((z :: zs) ++ [x]) := by simp
      rw [this]
      show y ++ sep ++ strJoin sep ((z :: zs) ++ [x]) = y ++ sep ++ f ++ x
      rw [hf, ← String.append_assoc]

theorem strJoin_chars (sep : String) (parts : List String) (c : Char) :
    c ∈ (strJoin sep parts).data →
      (∃ part ∈ parts, c ∈ part.data) ∨ c ∈ sep.data := by
  induction parts with
  | nil => intro hc; simp [strJoin] at hc
  | cons x xs ih =>
    intro hc
    cases xs with
    | nil =>
      left
      exact ⟨x, by simp, by simpa [strJoin] using hc⟩
    | cons y ys =>
      rw [show strJoin sep (x :: y :: ys) = x ++ sep ++ strJoin sep (y :: ys)
            from rfl] at hc
      simp only [String.data_append, List.mem_append] at hc
      rcases hc with (hc | hc) | hc
      · exact Or.inl ⟨x, by simp, hc⟩
      · exact Or.inr hc
      · rcases ih hc with ⟨part, hp, hcp⟩ | hsep
        · exact Or.inl ⟨part, by simp [hp], hcp⟩
        · exact Or.inr hsep

theorem natToStr_no_newline (n : ℕ) : '\n' ∉ (natToStr n).data := by
  intro hc
  have := natToStrAux_digits (n + 1) n '\n' hc
  simp [Char.isDigit] at this

theorem tableStartMarker_no_newline (tableNum pageNum : ℕ) :
    '\n' ∉ (tableStartMarker tableNum pageNum).data := by
  intro hc
  simp only [tableStartMarker, String.data_append, List.mem_append] at hc
  rcases hc with ((((hc | hc) | hc) | hc) | hc)
  · revert hc; decide
  · exact natToStr_no_newline tableNum hc
  · revert hc; decide
  · exact natToStr_no_newline pageNum hc
  · revert hc; decide

theorem tableEndMarker_no_newline (tableNum pageNum : ℕ) :
    '\n' ∉ (tableEndMarker tableNum pageNum).data := by
  intro hc
  simp only [tableEndMarker, String.data_append, List.mem_append] at hc
  rcases hc with ((((hc | hc) | hc) | hc) | hc)
  · revert hc; decide
  · exact natToStr_no_newline tableNum hc
  · revert hc; decide
  · exact natToStr_no_newline pageNum hc
  · revert hc; decide

/-- Claim C10 (confirmed): `table_to_text` returns `""` for an empty cell
grid; for a non-empty grid the result begins with the marker
`[표 N - 페이지 P 시작]`, ends with the marker `[표 N - 페이지 P 끝]`, and all
intermediate parts are joined by the literal `"<br>"` rather than by
newline characters — in particular the result contains no newline unless
some body part itself contains one. -/
theorem C10_table_to_text_markers (body : List (List String) → List String)
    (tableNum pageNum : ℕ) :
    table_to_text body [] tableNum pageNum = ""
    ∧ ∀ data : List (List String), data ≠ [] →
        (∃ r, table_to_text body data tableNum pageNum =
            tableStartMarker tableNum pageNum ++ r)
        ∧ (∃ f, table_to_text body data tableNum pageNum =
            f ++ tableEndMarker tableNum pageNum)
        ∧ ((∀ part ∈ body data, '\n' ∉ part.data) →
            '\n' ∉ (table_to_text body data tableNum pageNum).data) := by
  refine ⟨by simp [table_to_text, tableToTextWithPositions], ?_⟩
  intro data hne
  have hunfold : table_to_text body data tableNum pageNum =
      strJoin "<br>"
        ([tableStartMarker tableNum pageNum] ++ body data
          ++ [tableEndMarker tableNum pageNum]) := by
    simp [table_to_text, tableToTextWithPositions, hne]
  refine ⟨?_, ?_, ?_⟩
  · rw [hunfold]
    simpa using strJoin_head "<br>" (tableStartMarker tableNum pageNum)
      (body data ++ [tableEndMarker tableNum pageNum])
  · rw [hunfold]
    have := strJoin_last "<br>" (tableEndMarker tableNum pageNum)
      ([tableStartMarker tableNum pageNum] ++ body data)
    simpa [List.append_assoc] using this
  · intro hbody hc
    rw [hunfold] at hc
    rcases strJoin_chars "<br>" _ '\n' hc with ⟨part, hp, hcp⟩ | hsep
    · simp only [List.mem_append, List.mem_singleton] at hp
      rcases hp with (hp | hp) | hp
      · subst hp
        exact tableStartMarker_no_newline tableNum pageNum hcp
      · exact hbody part hp hcp
      · subst hp
        exact tableEndMarker_no_newline tableNum pageNum hcp
    · revert hsep; decide

/-- Witness for C10 on the spec's scenario table (header row
`["항목","하한치","상한치"]`, data row `["주파수","10","20"]`, table 1 on
page 1), with a body renderer producing one line: the output begins with
`[표 1 - 페이지 1 시작]`. -/
theorem C10_table_to_text_markers_witness :
    ∃ r, table_to_text (fun _ => ["하한치: 10"])
        [["항목", "하한치", "상한치"], ["주파수", "10", "20"]] 1 1 =
      tableStartMarker 1 1 ++ r :=
  ((C10_table_to_text_markers (fun _ => ["하한치: 10"]) 1 1).2
    [["항목", "하한치", "상한치"], ["주파수", "10", "20"]] (by simp)).1

/-! ## Leading glyph patterns (`extract_symbol_pattern`, table_analyzer.py lines 641-918)

The function first replaces a fixed list of special Unicode spaces with a
regular space, strips the line, then walks an ordered list of
`(regex, symbol_type)` pairs and returns the symbol type of the first regex
that matches at the start of the line (`re.match`), else `None`.

Each regex is translated into a prefix matcher on the line's characters.
Trailing `\s*` in a pattern never constrains matching and is dropped;
greedy one-or-more classes (`\d+`, `[^}]+`, …) followed by a character
outside the class need no backtracking, so they are translated as
maximal-munch.  The regex class `\s` is modelled by `pyIsSpace`.  The
pattern order of the source list is preserved exactly (including entries
made unreachable by earlier ones, such as `>>` after `>`). -/

abbrev LineChars := List Char

/-- The `unicode_spaces` list (given here by code point: U+00A0,
U+2000-U+200B, U+202F, U+205F, U+3000, tab, carriage return). -/
def unicodeSpaces : List Char :=
  [Char.ofNat 160, Char.ofNat 8192, Char.ofNat 8193, Char.ofNat 8194,
   Char.ofNat 8195, Char.ofNat 8196, Char.ofNat 8197, Char.ofNat 8198,
   Char.ofNat 8199, Char.ofNat 8200, Char.ofNat 8201, Char.ofNat 8202,
   Char.ofNat 8203, Char.ofNat 8239, Char.ofNat 8287, Char.ofNat 12288,
   '\t', '\r']

def normalizeSpaces (l : LineChars) : LineChars :=
  l.map (fun c => if c ∈ unicodeSpaces then ' ' else c)

def manyOne (p : Char → Bool) : LineChars → Option LineChars
  | [] => none
  | c :: cs => if p c then some (cs.dropWhile p) else none

def expectChar (c : Char) : LineChars → Option LineChars
  | [] => none
  | x :: xs => if x = c then some xs else none

def headIs (c : Char) (l : LineChars) : Bool :=
  match l with
  | x :: _ => x == c
  | [] => false

def head2Is (c1 c2 : Char) (l : LineChars) : Bool :=
  match l with
  | x :: y :: _ => x == c1 && y == c2
  | _ => false

def head3Is (c1 c2 c3 : Char) (l : LineChars) : Bool :=
  match l with
  | x :: y :: z :: _ => x == c1 && y == c2 && z == c3
  | _ => false

/-- `^(-)\s+` — a dash must be followed by whitespace. -/
def dashSpace (l : LineChars) : Bool :=
  match l with
  | x :: y :: _ => x == '-' && pyIsSpace y
  | _ => false

/-- `^(CLASS+)\s*(\d+)\s*$`. -/
def alphaNumFull (p : Char → Bool) (l : LineChars) : Bool :=
  match manyOne p l with
  | none => false
  | some r1 =>
    match manyOne Char.isDigit (r1.dropWhile pyIsSpace) with
    | none => false
    | some r2 => (r2.dropWhile pyIsSpace).isEmpty

/-- `^(CLASS+)\s*(\d+)\s+` — string+number at the start, more content after. -/
def alphaNumAtStart (p : Char → Bool) (l : LineChars) : Bool :=
  match manyOne p l with
  | none => false
  | some r1 =>
    match manyOne Char.isDigit (r1.dropWhile pyIsSpace) with
    | none => false
    | some (c :: _) => pyIsSpace c
    | some [] => false

/-- `^(CLASS+)c` for a one-or-more character class followed by a literal. -/
def classThen (p : Char → Bool) (c : Char) (l : LineChars) : Bool :=
  match manyOne p l with
  | some (x :: _) => x == c
  | _ => false

/-- `^(\d+)\s+`. -/
def digitsThenSpace (l : LineChars) : Bool :=
  match manyOne Char.isDigit l with
  | some (x :: _) => pyIsSpace x
  | _ => false

/-- `^op(CLASS+)cl`. -/
def parenClass (op : Char) (p : Char → Bool) (cl : Char) (l : LineChars) : Bool :=
  match expectChar op l with
  | none => false
  | some r =>
    match manyOne p r with
    | some (x :: _) => x == cl
    | _ => false

/-- `^c(\d+)` (used for `제N`). -/
def charThenDigits (c : Char) (l : LineChars) : Bool :=
  match expectChar c l with
  | none => false
  | some r => (manyOne Char.isDigit r).isSome

/-- `^([CLASS])c` for a single-character class followed by a literal. -/
def singleThen (p : Char → Bool) (c : Char) (l : LineChars) : Bool :=
  match l with
  | a :: b :: _ => p a && b == c
  | _ => false

/-- `^op([CLASS])cl`. -/
def parenSingle (op : Char) (p : Char → Bool) (cl : Char) (l : LineChars) : Bool :=
  match l with
  | o :: a :: b :: _ => o == op && p a && b == cl
  | _ => false

/-- `^(op[^cl]+cl)` — bracketed non-empty content. -/
def bracketAny (op cl : Char) (l : LineChars) : Bool :=
  match expectChar op l with
  | none => false
  | some r =>
    match manyOne (fun c => c != cl) r with
    | some (x :: _) => x == cl
    | _ => false

def isUpperAZ (c : Char) : Bool := 65 ≤ c.toNat && c.toNat ≤ 90

def isLowerAZ (c : Char) : Bool := 97 ≤ c.toNat && c.toNat ≤ 122

def isLatinLetter (c : Char) : Bool := isUpperAZ c || isLowerAZ c

/-- The `[가-힣]` class (Hangul syllables U+AC00–U+D7A3). -/
def isHangulSyllable (c : Char) : Bool := 44032 ≤ c.toNat && c.toNat ≤ 55203

/-- The `[ㄱ-ㅎ]` class (Hangul jamo U+3131–U+314E). -/
def isHangulJamo (c : Char) : Bool := 12593 ≤ c.toNat && c.toNat ≤ 12622

def isRomanLower (c : Char) : Bool := ['i', 'v', 'x', 'l', 'c', 'd', 'm'].contains c

def isRomanUpper (c : Char) : Bool := ['I', 'V', 'X', 'L', 'C', 'D', 'M'].contains c

/-- The ordered `(matcher, symbol_type)` list of `extract_symbol_pattern`. -/
def symbolPatterns : List ((LineChars → Bool) × String) := [
  (alphaNumFull isUpperAZ, "ALPHA_NUM"),
  (alphaNumFull isLowerAZ, "alpha_num"),
  (alphaNumFull isLatinLetter, "Alpha_Num"),
  (alphaNumFull isHangulSyllable, "한글_숫자"),
  (alphaNumAtStart isUpperAZ, "ALPHA_NUM_PREFIX"),
  (alphaNumAtStart isLowerAZ, "alpha_num_prefix"),
  (alphaNumAtStart isHangulSyllable, "한글_숫자_PREFIX"),
  (headIs '→', "→"), (headIs '▶', "▶"), (headIs '▷', "▷"),
  (headIs '◆', "◆"), (headIs '◇', "◇"), (headIs '▲', "▲"),
  (headIs '△', "△"), (headIs '▼', "▼"), (headIs '▽', "▽"),
  (headIs '◀', "◀"), (headIs '◁', "◁"), (headIs '⇒', "⇒"),
  (headIs '⇨', "⇨"), (headIs '➜', "➜"), (headIs '➤', "➤"),
  (headIs '⟶', "⟶"),
  (headIs '■', "■"), (headIs '□', "□"), (headIs '▪', "▪"),
  (headIs '▫', "▫"), (headIs '◼', "◼"), (headIs '◻', "◻"),
  (headIs '▣', "▣"), (headIs '▤', "▤"),
  (headIs '●', "●"), (headIs '○', "○"), (headIs '•', "•"),
  (headIs '◦', "◦"), (headIs '∙', "∙"), (headIs '·', "·"),
  (headIs '⦁', "⦁"), (headIs '◉', "◉"), (headIs '◎', "◎"),
  (headIs '⊙', "⊙"),
  (dashSpace, "-"),
  (headIs '–', "–"), (headIs '—', "—"), (headIs '―', "―"),
  (headIs '_', "_"), (headIs '＿', "＿"),
  (headIs '*', "*"), (headIs '★', "★"), (headIs '☆', "☆"),
  (headIs '✦', "✦"), (headIs '✧', "✧"), (headIs '✪', "✪"),
  (headIs '✫', "✫"),
  (headIs '✓', "✓"), (headIs '✔', "✔"), (headIs '☑', "☑"),
  (headIs '☐', "☐"), (headIs '✗', "✗"), (headIs '✘', "✘"),
  (headIs '☒', "☒"),
  (headIs '+', "+"), (headIs '×', "×"), (headIs '✕', "✕"),
  (headIs '✖', "✖"),
  (headIs '>', ">"), (headIs '<', "<"),
  (head2Is '>' '>', ">>"), (head2Is '<' '<', "<<"),
  (headIs '※', "※"), (headIs '♦', "♦"), (headIs '♢', "♢"),
  (headIs '♠', "♠"), (headIs '♣', "♣"), (headIs '♥', "♥"),
  (headIs '♡', "♡"), (headIs '§', "§"), (headIs '¶', "¶"),
  (headIs '†', "†"), (headIs '‡', "‡"), (headIs '‖', "‖"),
  (headIs '¤', "¤"), (headIs '◈', "◈"), (headIs '◊', "◊"),
  (headIs '⊚', "⊚"), (headIs '⊛', "⊛"), (headIs '⊕', "⊕"),
  (headIs '⊖', "⊖"), (headIs '⊗', "⊗"), (headIs '⊘', "⊘"),
  (classThen Char.isDigit ')', "N)"),
  (classThen Char.isDigit '.', "N."),
  (classThen Char.isDigit '-', "N-"),
  (parenClass '(' Char.isDigit ')', "(N)"),
  (parenClass '[' Char.isDigit ']', "[N]"),
  (digitsThenSpace, "N "),
  (classThen Char.isDigit ':', "N:"),
  (classThen Char.isDigit '번', "N번"),
  (charThenDigits '제', "제N"),
  (singleThen isHangulSyllable ')', "가)"),
  (singleThen isHangulSyllable '.', "가."),
  (parenSingle '(' isHangulSyllable ')', "(가)"),
  (parenSingle '[' isHangulSyllable ']', "[가]"),
  (singleThen isHangulJamo ')', "ㄱ)"),
  (singleThen isHangulJamo '.', "ㄱ."),
  (singleThen isLowerAZ ')', "a)"),
  (singleThen isUpperAZ ')', "A)"),
  (singleThen isLowerAZ '.', "a."),
  (singleThen isUpperAZ '.', "A."),
  (parenSingle '(' isLowerAZ ')', "(a)"),
  (parenSingle '(' isUpperAZ ')', "(A)"),
  (parenSingle '[' isLowerAZ ']', "[a]"),
  (parenSingle '[' isUpperAZ ']', "[A]"),
  (classThen isRomanLower ')', "i)"),
  (classThen isRomanUpper ')', "I)"),
  (classThen isRomanLower '.', "i."),
  (classThen isRomanUpper '.', "I."),
  (parenClass '(' isRomanLower ')', "(i)"),
  (parenClass '(' isRomanUpper ')', "(I)"),
  (headIs '①', "①"), (headIs '②', "②"), (headIs '③', "③"),
  (headIs '④', "④"), (headIs '⑤', "⑤"), (headIs '⑥', "⑥"),
  (headIs '⑦', "⑦"), (headIs '⑧', "⑧"), (headIs '⑨', "⑨"),
  (headIs '⑩', "⑩"), (headIs '⑪', "⑪"), (headIs '⑫', "⑫"),
  (headIs '⑬', "⑬"), (headIs '⑭', "⑭"), (headIs '⑮', "⑮"),
  (headIs '⑯', "⑯"), (headIs '⑰', "⑰"), (headIs '⑱', "⑱"),
  (headIs '⑲', "⑲"), (headIs '⑳', "⑳"),
  (headIs 'ⓐ', "ⓐ"), (headIs 'ⓑ', "ⓑ"), (headIs 'ⓒ', "ⓒ"),
  (headIs 'ⓓ', "ⓓ"),
  (headIs 'Ⓐ', "Ⓐ"), (headIs 'Ⓑ', "Ⓑ"), (headIs 'Ⓒ', "Ⓒ"),
  (headIs 'Ⓓ', "Ⓓ"),
  (headIs '⑴', "⑴"), (headIs '⑵', "⑵"), (headIs '⑶', "⑶"),
  (headIs '⑷', "⑷"), (headIs '⑸', "⑸"),
  (bracketAny (Char.ofNat 123) (Char.ofNat 125), "\x7b\x7d"),
  (bracketAny '[' ']', "[]"),
  (bracketAny '(' ')', "()"),
  (bracketAny '《' '》', "《》"),
  (bracketAny '〈' '〉', "〈〉"),
  (bracketAny '【' '】', "【】"),
  (bracketAny '〔' '〕', "〔〕"),
  (headIs '#', "#"), (head2Is '#' '#', "##"), (head3Is '#' '#' '#', "###"),
  (headIs '@', "@"), (headIs '&', "&"), (headIs '%', "%"),
  (headIs '$', "$"),
  (headIs '！', "！"), (headIs '？', "？"), (headIs '：', "："),
  (headIs '；', "；"), (headIs '、', "、"), (headIs '。', "。"),
  (headIs '，', "，"), (headIs '．', "．"), (headIs '・', "・"),
  (headIs '…', "…"), (headIs '‥', "‥"),
  (bracketAny '「' '」', "「」"),
  (bracketAny '『' '』', "『』")
]

def extract_symbol_pattern (line : String) : Option String :=
  let l := pyStripChars (normalizeSpaces line.data)
  (symbolPatterns.find? (fun pr => pr.1 l)).map (fun pr => pr.2)

/-! ## Multi-line cell level assignment
(`parse_cell_structure`, table_formatter.py lines 251-331)

The first loop of `parse_cell_structure` assigns a nesting level to every
line of a multi-line first-column cell, producing `line_infos`.  It is
embedded as a left fold (`cellStep`) over the cell's lines, carrying the
loop state `(line_infos, current_level, symbol_levels, last_symbol)` plus
the `enumerate` index.  The value-distribution part of the function (lines
333 onwards) is not needed by the claims about level assignment and is not
modelled.  The dictionary `symbol_levels` is an insertion of each symbol at
its first occurrence, modelled as an association list.  `line_infos[-1]`
on an empty list would raise `IndexError` in Python (caught by the
enclosing `try`); this is unreachable for the actual caller, which filters
out empty lines first, and the model uses level `0` as the default in that
case. -/

structure LineInfo where
  text : String
  level : ℕ
  kind : String
  symbol : Option String
  deriving DecidableEq, Repr

structure CellParseState where
  infos : List LineInfo
  currentLevel : ℕ
  symbolLevels : List (String × ℕ)
  lastSymbol : Option String
  deriving DecidableEq, Repr

def lookupSym (m : List (String × ℕ)) (s : String) : Option ℕ :=
  (m.find? (fun p => p.1 == s)).map (fun p => p.2)

def lastInfoLevel (st : CellParseState) : ℕ :=
  match st.infos.getLast? with
  | some info => info.level
  | none => 0

def cellStep (extract : String → Option String)
    (acc : CellParseState × ℕ) (line : String) : CellParseState × ℕ :=
  let st := acc.1
  let i := acc.2
  if line = "" then (st, i + 1)
  else if i = 0 then
    ({ st with
        infos := st.infos ++ [⟨line, 0, "main", none⟩],
        currentLevel := 0 },
     i + 1)
  else
    match extract line with
    | some symbol =>
      match lookupSym st.symbolLevels symbol with
      | some lvl =>
        ({ infos := st.infos ++ [⟨line, lvl, "item", some symbol⟩],
           currentLevel := lvl,
           symbolLevels := st.symbolLevels,
           lastSymbol := some symbol }, i + 1)
      | none =>
        let lvl : ℕ :=
          match st.lastSymbol with
          | some ls => if ls ≠ symbol then lastInfoLevel st + 1
                       else lastInfoLevel st
          | none => 1
        ({ infos := st.infos ++ [⟨line, lvl, "item", some symbol⟩],
           currentLevel := lvl,
           symbolLevels := (symbol, lvl) :: st.symbolLevels,
           lastSymbol := some symbol }, i + 1)
    | none =>
      let lvl : ℕ :=
        match st.infos.getLast? with
        | some info => info.level + 1
        | none => 1
      ({ infos := st.infos ++ [⟨line, lvl, "text", none⟩],
         currentLevel := lvl,
         symbolLevels := st.symbolLevels,
         lastSymbol := none }, i + 1)

def initCellState : CellParseState :=
  ⟨[], 0, [], none⟩

/-- The `line_infos` list computed by the first loop of
`parse_cell_structure`. -/
def lineLevelInfos (extract : String → Option String)
    (lines : List String) : List LineInfo :=
  (lines.foldl (cellStep extract) (initCellState, 0)).1.infos

/-- Claim C9, counterexample: in the cell with lines
`["점검 항목", "내용 설명입니다", "① 첫째"]` the third line's glyph pattern
`①` is new, and the immediately preceding line (a pattern-less
continuation line at level 1) should force level `1 + 1 = 2` by the claim;
the code instead assigns level 1 (the `last_symbol` tracker was reset to
`None` by the pattern-less line, so the `else` branch `current_level = 1`
runs). -/
theorem C9_cell_levels_counterexample :
    ((lineLevelInfos extract_symbol_pattern
        ["점검 항목", "내용 설명입니다", "① 첫째"]).map
      (fun info => (info.level, info.symbol)) =
      [(0, none), (1, none), (1, some "①")])
    ∧ (1 : ℕ) ≠ 1 + 1 := by
  refine ⟨by decide, by decide⟩

/-- All lines of a cell that carry the same extracted glyph pattern are
assigned the same level. -/
def SameSymbolSameLevel (l : List LineInfo) : Prop :=
  ∀ inf1 ∈ l, ∀ inf2 ∈ l, ∀ s : String,
    inf1.symbol = some s → inf2.symbol = some s → inf1.level = inf2.level

/-- The (amended) rule for a line whose glyph pattern has not occurred
before: its level is one more than the preceding line's level when the
preceding line itself carries a glyph pattern, and 1 otherwise. -/
def NewSymbolRule (l : List LineInfo) : Prop :=
  ∀ (i : ℕ) infPrev inf (s : String),
    l[i]? = some infPrev → l[i + 1]? = some inf → inf.symbol = some s →
    (∀ (k : ℕ) infk, k ≤ i → l[k]? = some infk → infk.symbol ≠ some s) →
    inf.level = if infPrev.symbol.isSome then infPrev.level + 1 else 1

/-- Loop invariant of the level-assignment fold: the `symbol_levels`
dictionary stores exactly the level of (every occurrence of) each symbol
seen so far, `last_symbol` mirrors the last line's symbol, index 0 means
the pristine state, and the new-symbol rule holds for the lines emitted so
far. -/
def CellInv (acc : CellParseState × ℕ) : Prop :=
  (∀ info ∈ acc.1.infos, ∀ s : String, info.symbol = some s →
      lookupSym acc.1.symbolLevels s = some info.level)
  ∧ (∀ (s : String) (lvl : ℕ), lookupSym acc.1.symbolLevels s = some lvl →
      ∃ info ∈ acc.1.infos, info.symbol = some s ∧ info.level = lvl)
  ∧ (acc.1.lastSymbol = (match acc.1.infos.getLast? with
      | some info => info.symbol
      | none => none))
  ∧ (acc.2 = 0 → acc.1 = initCellState)
  ∧ NewSymbolRule acc.1.infos

theorem cellStep_empty (e : String → Option String) (acc : CellParseState × ℕ)
    (line : String) (h : line = "") :
    cellStep e acc line = (acc.1, acc.2 + 1) := by
  simp [cellStep, h]

theorem cellStep_main (e : String → Option String) (acc : CellParseState × ℕ)
    (line : String) (h1 : line ≠ "") (h2 : acc.2 = 0) :
    cellStep e acc line =
      ({ acc.1 with
          infos := acc.1.infos ++ [⟨line, 0, "main", none⟩],
          currentLevel := 0 },
       acc.2 + 1) := by
  simp [cellStep, h1, h2]

theorem cellStep_seen (e : String → Option String) (acc : CellParseState × ℕ)
    (line : String) (symbol : String) (lvl : ℕ)
    (h1 : line ≠ "") (h2 : acc.2 ≠ 0) (hs : e line = some symbol)
    (hl : lookupSym acc.1.symbolLevels symbol = some lvl) :
    cellStep e acc line =
      (⟨acc.1.infos ++ [⟨line, lvl, "item", some symbol⟩], lvl,
        acc.1.symbolLevels, some symbol⟩, acc.2 + 1) := by
  simp [cellStep, h1, h2, hs, hl]

theorem cellStep_new (e : String → Option String) (acc : CellParseState × ℕ)
    (line : String) (symbol : String) (lvl : ℕ)
    (h1 : line ≠ "") (h2 : acc.2 ≠ 0) (hs : e line = some symbol)
    (hl : lookupSym acc.1.symbolLevels symbol = none)
    (hlvl : lvl = (match acc.1.lastSymbol with
                   | some ls => if ls ≠ symbol then lastInfoLevel acc.1 + 1
                                else lastInfoLevel acc.1
                   | none => 1)) :
    cellStep e acc line =
      (⟨acc.1.infos ++ [⟨line, lvl, "item", some symbol⟩], lvl,
        (symbol, lvl) :: acc.1.symbolLevels, some symbol⟩, acc.2 + 1) := by
  subst hlvl
  simp [cellStep, h1, h2, hs, hl]

theorem cellStep_text (e : String → Option String) (acc : CellParseState × ℕ)
    (line : String) (lvl : ℕ)
    (h1 : line ≠ "") (h2 : acc.2 ≠ 0) (hs : e line = none)
    (hlvl : lvl = (match acc.1.infos.getLast? with
                   | some info => info.level + 1
                   | none => 1)) :
    cellStep e acc line =
      (⟨acc.1.infos ++ [⟨line, lvl, "text", none⟩], lvl,
        acc.1.symbolLevels, none⟩, acc.2 + 1) := by
  subst hlvl
  simp [cellStep, h1, h2, hs]

theorem lookupSym_cons_ne (m : List (String × ℕ)) (s s' : String) (lvl : ℕ)
    (h : s' ≠ s) : lookupSym ((s, lvl) :: m) s' = lookupSym m s' := by
  have hfind : List.find? (fun p => p.1 == s') ((s, lvl) :: m) =
      List.find? (fun p => p.1 == s') m := by
    refine List.find?_cons_of_neg _ ?_
    simp only [beq_iff_eq]
    exact fun hc => h hc.symm
  simp [lookupSym, hfind]

theorem lookupSym_cons_eq (m : List (String × ℕ)) (s : String) (lvl : ℕ) :
    lookupSym ((s, lvl) :: m) s = some lvl := by
  have hfind : List.find? (fun p => p.1 == s) ((s, lvl) :: m) =
      some (s, lvl) := by
    refine List.find?_cons_of_pos _ ?_
    simp
  simp [lookupSym, hfind]

/-- Appending one line-info whose (possibly absent) symbol either respects
the new-symbol rule at the boundary or repeats an existing symbol's level
keeps `NewSymbolRule`. -/
theorem NewSymbolRule_append (old : List LineInfo) (new : LineInfo)
    (hold : NewSymbolRule old)
    (hbound : ∀ infPrev (s : String), old.getLast? = some infPrev →
      new.symbol = some s →
      (∀ infk ∈ old, infk.symbol ≠ some s) →
      new.level = if infPrev.symbol.isSome then infPrev.level + 1 else 1) :
    NewSymbolRule (old ++ [new]) := by
  intro i infPrev inf s hPrev hInf hsym hfresh
  have hlen : i + 1 < old.length + 1 := by
    by_contra hcon
    rw [List.getElem?_append_right (by omega)] at hInf
    have hnone : ([new] : List LineInfo)[i + 1 - old.length]? = none := by
      rw [List.getElem?_eq_none]
      simp only [List.length_singleton]
      omega
    rw [hnone] at hInf
    exact Option.noConfusion hInf
  by_cases hi : i + 1 < old.length
  · rw [List.getElem?_append_left (by omega)] at hPrev
    rw [List.getElem?_append_left hi] at hInf
    refine hold i infPrev inf s hPrev hInf hsym ?_
    intro k infk hk hkget
    refine hfresh k infk hk ?_
    rw [List.getElem?_append_left (by omega)]
    exact hkget
  · have hieq : i + 1 = old.length := by omega
    rw [List.getElem?_append_right (by omega)] at hInf
    rw [hieq] at hInf
    simp at hInf
    subst hInf
    rw [List.getElem?_append_left (by omega)] at hPrev
    have hlast : old.getLast? = some infPrev := by
      rw [List.getLast?_eq_getElem?]
      have hl1 : old.length - 1 = i := by omega
      rw [hl1]
      exact hPrev
    refine hbound infPrev s hlast hsym ?_
    intro infk hmem
    obtain ⟨k, hk, hkget⟩ := List.getElem_of_mem hmem
    refine hfresh k infk (by omega) ?_
    rw [List.getElem?_append_left (by omega)]
    rw [List.getElem?_eq_getElem hk]
    rw [hkget]

theorem cellStep_inv (e : String → Option String) (acc : CellParseState × ℕ)
    (line : String) (hinv : CellInv acc) : CellInv (cellStep e acc line) := by
  obtain ⟨hA, hB, hC, hD, hE⟩ := hinv
  by_cases h1 : line = ""
  · rw [cellStep_empty e acc line h1]
    exact ⟨hA, hB, hC, by omega, hE⟩
  by_cases h2 : acc.2 = 0
  · rw [cellStep_main e acc line h1 h2]
    have hinit := hD h2
    rw [hinit]
    simp only [initCellState]
    refine ⟨?_, ?_, ?_, by omega, ?_⟩
    · intro info hinfo s hsym
      simp at hinfo
      rw [hinfo] at hsym
      simp at hsym
    · intro s lvl hlook
      simp [lookupSym] at hlook
    · simp
    · intro i infPrev inf s hPrev hInf
      simp at hInf
  rcases hs : e line with _ | symbol
  · -- pattern-less text line
    rw [cellStep_text e acc line _ h1 h2 hs rfl]
    refine ⟨?_, ?_, ?_, by omega, ?_⟩
    · intro info hinfo s hsym
      rcases List.mem_append.mp hinfo with hmem | hmem
      · exact hA info hmem s hsym
      · simp only [List.mem_singleton] at hmem
        subst hmem
        simp at hsym
    · intro s lvl hlook
      obtain ⟨info, hmem, hrest⟩ := hB s lvl hlook
      exact ⟨info, List.mem_append.mpr (Or.inl hmem), hrest⟩
    · simp
    · refine NewSymbolRule_append _ _ hE ?_
      intro infPrev s _ hsym
      simp at hsym
  rcases hl : lookupSym acc.1.symbolLevels symbol with _ | lvl
  · -- new symbol
    rw [cellStep_new e acc line symbol _ h1 h2 hs hl rfl]
    refine ⟨?_, ?_, ?_, by omega, ?_⟩
    · intro info hinfo s hsym
      rcases List.mem_append.mp hinfo with hmem | hmem
      · have hne : s ≠ symbol := by
          intro hcon
          rw [hcon] at hsym
          have hcontra := hA info hmem symbol hsym
          rw [hl] at hcontra
          exact Option.noConfusion hcontra
        rw [lookupSym_cons_ne _ _ _ _ hne]
        exact hA info hmem s hsym
      · simp only [List.mem_singleton] at hmem
        subst hmem
        have hss : symbol = s := by simpa using hsym
        subst hss
        exact lookupSym_cons_eq _ _ _
    · intro s lvl' hlook
      by_cases hseq : s = symbol
      · subst hseq
        rw [lookupSym_cons_eq] at hlook
        refine ⟨_, List.mem_append.mpr (Or.inr (List.mem_singleton.mpr rfl)),
          rfl, ?_⟩
        exact (Option.some.inj hlook)
      · rw [lookupSym_cons_ne _ _ _ _ hseq] at hlook
        obtain ⟨info, hmem, hrest⟩ := hB s lvl' hlook
        exact ⟨info, List.mem_append.mpr (Or.inl hmem), hrest⟩
    · simp
    · refine NewSymbolRule_append _ _ hE ?_
      intro infPrev s hlast hsym hfreshmem
      have hss : symbol = s := by simpa using hsym
      subst hss
      -- the last line's symbol cannot be `symbol` again, by freshness
      have hlastSym : acc.1.lastSymbol = infPrev.symbol := by
        rw [hC, hlast]
      show (match acc.1.lastSymbol with
            | some ls => if ls ≠ symbol then lastInfoLevel acc.1 + 1
                         else lastInfoLevel acc.1
            | none => 1) =
          if infPrev.symbol.isSome then infPrev.level + 1 else 1
      rcases hps : infPrev.symbol with _ | ls
      · rw [hlastSym, hps]
        simp
      · rw [hlastSym, hps]
        have hne : ls ≠ symbol := by
          intro hcon
          subst hcon
          exact hfreshmem infPrev (List.mem_of_mem_getLast? hlast) hps
        simp only [ne_eq, hne, not_false_eq_true, if_true, Option.isSome_some]
        have hlev : lastInfoLevel acc.1 = infPrev.level := by
          rw [lastInfoLevel, hlast]
        rw [hlev]
  · -- seen symbol
    rw [cellStep_seen e acc line symbol lvl h1 h2 hs hl]
    refine ⟨?_, ?_, ?_, by omega, ?_⟩
    · intro info hinfo s hsym
      rcases List.mem_append.mp hinfo with hmem | hmem
      · exact hA info hmem s hsym
      · simp only [List.mem_singleton] at hmem
        subst hmem
        have hss : symbol = s := by simpa using hsym
        subst hss
        exact hl
    · intro s lvl' hlook
      obtain ⟨info, hmem, hrest⟩ := hB s lvl' hlook
      exact ⟨info, List.mem_append.mpr (Or.inl hmem), hrest⟩
    · simp
    · refine NewSymbolRule_append _ _ hE ?_
      intro infPrev s _ hsym hfreshmem
      exfalso
      have hss : symbol = s := by simpa using hsym
      subst hss
      obtain ⟨info, hmem, hisym, hilvl⟩ := hB symbol lvl hl
      exact hfreshmem info hmem hisym

theorem foldl_cellStep_inv (e : String → Option String) :
    ∀ (lines : List String) (acc : CellParseState × ℕ), CellInv acc →
      CellInv (lines.foldl (cellStep e) acc) := by
  intro lines
  induction lines with
  | nil => intro acc h; exact h
  | cons l rest ih =>
    intro acc h
    exact ih (cellStep e acc l) (cellStep_inv e acc l h)

theorem initCellState_inv : CellInv (initCellState, 0) := by
  refine ⟨?_, ?_, ?_, ?_, ?_⟩
  · intro info hinfo; simp [initCellState] at hinfo
  · intro s lvl hlook; simp [initCellState, lookupSym] at hlook
  · simp [initCellState]
  · intro _; rfl
  · intro i infPrev inf s hPrev
    simp [initCellState] at hPrev

theorem cellStep_infos_grow (e : String → Option String)
    (acc : CellParseState × ℕ) (line : String) :
    ∃ t, (cellStep e acc line).1.infos = acc.1.infos ++ t := by
  by_cases h1 : line = ""
  · rw [cellStep_empty e acc line h1]; exact ⟨[], by simp⟩
  by_cases h2 : acc.2 = 0
  · rw [cellStep_main e acc line h1 h2]; exact ⟨_, rfl⟩
  rcases hs : e line with _ | symbol
  · rw [cellStep_text e acc line _ h1 h2 hs rfl]; exact ⟨_, rfl⟩
  rcases hl : lookupSym acc.1.symbolLevels symbol with _ | lvl
  · rw [cellStep_new e acc line symbol _ h1 h2 hs hl rfl]; exact ⟨_, rfl⟩
  · rw [cellStep_seen e acc line symbol lvl h1 h2 hs hl]; exact ⟨_, rfl⟩

theorem foldl_cellStep_infos_grow (e : String → Option String) :
    ∀ (lines : List String) (acc : CellParseState × ℕ),
      ∃ t, (lines.foldl (cellStep e) acc).1.infos = acc.1.infos ++ t := by
  intro lines
  induction lines with
  | nil => intro acc; exact ⟨[], by simp⟩
  | cons l rest ih =>
    intro acc
    obtain ⟨t1, ht1⟩ := cellStep_infos_grow e acc l
    obtain ⟨t2, ht2⟩ := ih (cellStep e acc l)
    refine ⟨t1 ++ t2, ?_⟩
    simp only [List.foldl_cons]
    rw [ht2, ht1, List.append_assoc]

/-- Claim C9 (amended): in the multi-line cell level assignment of
`parse_cell_structure` (applied, as in the caller, to a list of non-empty
lines), the first line is always level 0; every line whose leading glyph
pattern was already seen in the same cell is assigned the level previously
assigned to that pattern (all lines sharing a pattern get equal levels);
and a line whose glyph pattern is new is assigned one more than the
immediately preceding line's level when the preceding line itself carries
a glyph pattern — but level 1 when the preceding line carries no pattern
(`last_symbol` is reset by pattern-less lines; level 1 coincides with
"preceding + 1" only when the preceding line is the cell's first line).
The unamended claim asserted "preceding + 1" unconditionally, which fails
after a pattern-less continuation line, see the counterexample. -/
theorem C9_cell_levels_amended (extract : String → Option String)
    (lines : List String) (hne : ∀ l ∈ lines, l ≠ "") :
    (∀ inf, (lineLevelInfos extract lines).head? = some inf → inf.level = 0)
    ∧ SameSymbolSameLevel (lineLevelInfos extract lines)
    ∧ NewSymbolRule (lineLevelInfos extract lines) := by
  have hinv := foldl_cellStep_inv extract lines (initCellState, 0)
    initCellState_inv
  refine ⟨?_, ?_, ?_⟩
  · intro inf hhead
    cases lines with
    | nil =>
      simp [lineLevelInfos, initCellState] at hhead
    | cons l0 rest =>
      have hl0 : l0 ≠ "" := hne l0 (by simp)
      have hstep := cellStep_main extract (initCellState, 0) l0 hl0 rfl
      obtain ⟨t, ht⟩ :=
        foldl_cellStep_infos_grow extract rest (cellStep extract
          (initCellState, 0) l0)
      have hmain : (lineLevelInfos extract (l0 :: rest)).head? =
          some ⟨l0, 0, "main", none⟩ := by
        rw [lineLevelInfos]
        simp only [List.foldl_cons]
        rw [ht, hstep]
        simp [initCellState]
      rw [hmain] at hhead
      have heq := Option.some.inj hhead
      rw [← heq]
  · intro inf1 hm1 inf2 hm2 s hs1 hs2
    obtain ⟨hA, _, _, _, _⟩ := hinv
    have h1 := hA inf1 hm1 s hs1
    have h2 := hA inf2 hm2 s hs2
    rw [h2] at h1
    exact Option.some_injective ℕ h1.symm
  · exact hinv.2.2.2.2

/-- Witness for C9 (amended): the concrete cell `["가. 제목", "① 항목"]`
has its first line at level 0, equal levels for equal glyph patterns, and
the new-pattern level rule. -/
theorem C9_cell_levels_amended_witness :
    (∀ inf, (lineLevelInfos extract_symbol_pattern
        ["가. 제목", "① 항목"]).head? = some inf → inf.level = 0)
    ∧ SameSymbolSameLevel (lineLevelInfos extract_symbol_pattern
        ["가. 제목", "① 항목"])
    ∧ NewSymbolRule (lineLevelInfos extract_symbol_pattern
        ["가. 제목", "① 항목"]) :=
  C9_cell_levels_amended extract_symbol_pattern ["가. 제목", "① 항목"]
    (by decide)

/-! ## Heading-based section splitter
(`split_pdf_by_section_headings`, pdf_splitter.py lines 636-1178)

A document is a list of pages, each page a list of its text lines (the
result of `splitlines` on the page text); all modelling is at line
granularity, which is exact when every heading match spans whole lines
(numeric headings always do, since their pattern consumes `.+` to the end
of the line; Korean chapter and appendix lines are assumed to contain only
the matched text, as in all concrete documents below).

The default pattern

```
(?m)^(?:제\s*\d{1,3}\s*장)|(?:첨부\s*\d{1,3})
     |(?:\d{1,2}(?:\.\d{1,2}){1,3})(?:\.?)\s+(?!Radio Navigation and
     Landing Aids)[^\s\d].+
```

anchors only its first alternative at line starts; the model matches all
three alternatives at line starts only, which agrees with the source on
documents whose 첨부/numeric heading text occurs only at line starts (as in
every document considered here), and one match per line.  Greedy digit
groups are translated as maximal munch, exact for digit runs of length at
most the quantifier bound (regex backtracking never helps beyond that for
these patterns).  Table-content removal (`remove_table_content`) is the
identity on documents without table markers and is omitted. -/

inductive HeadKind where
  | chapter (n : ℕ)
  | appendix (n : ℕ)
  | numeric (path : List ℕ)
  deriving DecidableEq, Repr

def digitsToNat (l : List Char) : ℕ :=
  l.foldl (fun n c => 10 * n + (c.toNat - 48)) 0

/-- `제\s*\d{1,3}\s*장` at the start of a line; returns the chapter number
and the matched characters. -/
def matchKoreanChapter (l : List Char) : Option (ℕ × List Char) := do
  let r1 ← expectChar '제' l
  let sp1 := r1.takeWhile pyIsSpace
  let r2 := r1.drop sp1.length
  let ds := r2.takeWhile Char.isDigit
  if ds.length < 1 ∨ 3 < ds.length then none
  else
    let r3 := r2.drop ds.length
    let sp2 := r3.takeWhile pyIsSpace
    let r4 := r3.drop sp2.length
    let _ ← expectChar '장' r4
    some (digitsToNat ds, '제' :: sp1 ++ ds ++ sp2 ++ ['장'])

def expectStr (w : List Char) (l : List Char) : Option (List Char) :=
  if w.isPrefixOf l then some (l.drop w.length) else none

/-- `첨부\s*\d{1,3}` at the start of a line (the greedy quantifier takes at
most the first three digits). -/
def matchAppendixHead (l : List Char) : Option (ℕ × List Char) := do
  let r1 ← expectStr ['첨', '부'] l
  let sp1 := r1.takeWhile pyIsSpace
  let r2 := r1.drop sp1.length
  let ds := (r2.takeWhile Char.isDigit).take 3
  if ds.length < 1 then none
  else some (digitsToNat ds, '첨' :: '부' :: sp1 ++ ds)

/-- One `\.\d{1,2}` group, up to three times (greedy). -/
def numericGroups : ℕ → List Char → Option (List ℕ × List Char × List Char)
  | 0, rest => some ([], [], rest)
  | bound + 1, rest =>
    match rest with
    | '.' :: r1 =>
      let ds := r1.takeWhile Char.isDigit
      if ds.length < 1 ∨ 2 < ds.length then some ([], [], rest)
      else
        match numericGroups bound (r1.drop ds.length) with
        | some (ns, cs, rest') =>
          some (digitsToNat ds :: ns, '.' :: ds ++ cs, rest')
        | none => none
    | _ => some ([], [], rest)

/-- `\d{1,2}(\.\d{1,2}){1,3}(\.?)\s+(?!Radio Navigation and Landing
Aids)[^\s\d].+` at the start of a line; the match extends to the end of
the line, so the matched text is the whole line. -/
def matchNumericHeading (l : List Char) : Option (List ℕ) := do
  let d1 := l.takeWhile Char.isDigit
  if d1.length < 1 ∨ 2 < d1.length then none
  else
    let r1 := l.drop d1.length
    let (ns, _, r2) ← numericGroups 3 r1
    if ns.length < 1 then none
    else
      let r3 := match r2 with
                | '.' :: r => r
                | r => r
      let sp := r3.takeWhile pyIsSpace
      if sp.length < 1 then none
      else
        let r4 := r3.drop sp.length
        if ("Radio Navigation and Landing Aids").data.isPrefixOf r4 then none
        else
          match r4 with
          | c :: _ :: _ =>
            if pyIsSpace c ∨ c.isDigit then none
            else some (digitsToNat d1 :: ns)
          | _ => none

/-- The pattern alternation, tried in source order, at a line start;
returns the heading kind and the matched text. -/
def matchHeadingLine (line : String) : Option (HeadKind × String) :=
  match matchKoreanChapter line.data with
  | some (n, cs) => some (HeadKind.chapter n, ⟨cs⟩)
  | none =>
    match matchAppendixHead line.data with
    | some (n, cs) => some (HeadKind.appendix n, ⟨cs⟩)
    | none =>
      match matchNumericHeading line.data with
      | some path => some (HeadKind.numeric path, line)
      | none => none

/-- Collapse whitespace runs to single spaces (the flag records whether the
previous character was whitespace). -/
def collapseWS : Bool → List Char → List Char
  | _, [] => []
  | prevSpace, c :: cs =>
    if pyIsSpace c then
      if prevSpace then collapseWS true cs
      else ' ' :: collapseWS true cs
    else c :: collapseWS false cs

/-- `re.sub(r'\s+', ' ', s.strip())`. -/
def normSpaces (s : String) : String :=
  ⟨collapseWS false (pyStripChars s.data)⟩

structure MatchItem where
  kind : HeadKind
  titleRaw : String
  pageIdx : ℕ
  lineIdx : ℕ
  deriving DecidableEq, Repr

/-- `page_text.find(match_text)` at line granularity: the first line of the
page of which the matched text is a prefix (matches start at line starts). -/
def findMatchLine (page : List String) (matched : String) : Option ℕ :=
  page.findIdx? (fun ln => matched.data.isPrefixOf ln.data)

/-- Scan one page for heading matches, threading the Korean-chapter counter
and skipping the first occurrence of `제 1 장` (lines 762-789). -/
def scanPage (pageIdx : ℕ) (page : List String)
    (acc : List MatchItem × ℕ) : List MatchItem × ℕ :=
  page.foldl
    (fun (a : List MatchItem × ℕ) line =>
      match matchHeadingLine line with
      | none => a
      | some (kind, matched) =>
        match kind with
        | HeadKind.chapter n =>
          let kc := a.2 + 1
          if kc = 1 ∧ n = 1 then (a.1, kc)
          else
            match findMatchLine page matched with
            | some li =>
              (a.1 ++ [⟨kind, normSpaces matched, pageIdx, li⟩], kc)
            | none => (a.1, kc)
        | _ =>
          match findMatchLine page matched with
          | some li => (a.1 ++ [⟨kind, normSpaces matched, pageIdx, li⟩], a.2)
          | none => a)
    acc

def keyLe (x m : MatchItem) : Bool :=
  x.pageIdx < m.pageIdx ∨ (x.pageIdx = m.pageIdx ∧ x.lineIdx ≤ m.lineIdx)

/-- Stable insertion after all items with key ≤ the new item's key; folding
this over a list is a stable sort by `(page_idx, actual_start)`, matching
`matches.sort(key=...)`. -/
def insertByKey (m : MatchItem) : List MatchItem → List MatchItem
  | [] => [m]
  | x :: xs => if keyLe x m then x :: insertByKey m xs else m :: x :: xs

def sortByKey (ms : List MatchItem) : List MatchItem :=
  ms.foldl (fun acc m => insertByKey m acc) []

def scanMatches (pages : List (List String)) : List MatchItem :=
  let scanned :=
    (pages.foldl
      (fun (a : (List MatchItem × ℕ) × ℕ) page =>
        (scanPage a.2 page a.1, a.2 + 1))
      (([], 0), 0)).1.1
  sortByKey scanned

/-! ### Sequence validation helpers (pdf_splitter.py lines 835-917) -/

/-- `'.'.join(map(str, path))` — the string key under which a numeric path
is stored in `seen_section_numbers` / `current_chapter_sections`. -/
def pathKey (p : List ℕ) : String :=
  strJoin "." (p.map natToStr)

def splitOnDot : List Char → List (List Char)
  | [] => [[]]
  | c :: cs =>
    if c = '.' then [] :: splitOnDot cs
    else
      match splitOnDot cs with
      | t :: ts => (c :: t) :: ts
      | [] => [[c]]

/-- `parse_number`: `[int(p) for p in n.split(".") if p.isdigit()]`. -/
def parse_number (s : String) : List ℕ :=
  (splitOnDot s.data).filterMap
    (fun t => if t ≠ [] ∧ t.all Char.isDigit then some (digitsToNat t)
              else none)

/-- The `for i in range(min(len(prev), len(current)))` loop of
`is_strictly_next` ("back to higher level"), including the final
`return False` when the loop exhausts without a differing digit. -/
def strictLoop : List ℕ → List ℕ → Bool
  | p :: ps, c :: cs =>
    if c = p then strictLoop ps cs
    else if c = p + 1 then cs.all (fun x => x = 1)
    else false
  | _, _ => false

/-- The purely numeric cases of `is_strictly_next` (lines 849-868):
same depth with incremented last digit, one level deeper starting at 1, or
the "back to higher level" loop.  `prev = []` models a falsy `prev`. -/
def strictNextNumeric (prev cur : List ℕ) : Bool :=
  if prev.isEmpty then true
  else if cur.length = prev.length then
    cur.dropLast == prev.dropLast &&
      (match prev.getLast?, cur.getLast? with
       | some a, some b => b == a + 1
       | _, _ => false)
  else if cur.length = prev.length + 1 then
    cur.dropLast == prev && cur.getLast? == some 1
  else strictLoop prev cur

/-- `is_strictly_next(prev, current, current_chapter,
current_chapter_sections)`. -/
def is_strictly_next (prev cur : List ℕ) (currentChapter : Option ℕ)
    (chapterSecs : List String) : Bool :=
  match currentChapter, cur with
  | some ch, c0 :: _ =>
    if c0 = ch then ! chapterSecs.contains (pathKey cur)
    else strictNextNumeric prev cur
  | _, _ => strictNextNumeric prev cur

/-- `is_out_of_order(current, current_chapter, current_chapter_sections)`. -/
def is_out_of_order (cur : List ℕ) (currentChapter : Option ℕ)
    (chapterSecs : List String) : Bool :=
  match currentChapter with
  | none => false
  | some ch =>
    match cur with
    | [] => false
    | c0 :: _ =>
      if c0 ≠ ch then true
      else
        chapterSecs.any (fun e =>
          let ep := parse_number e
          if cur.length < ep.length then ep.take cur.length == cur
          else if cur.length = ep.length then
            cur.dropLast == ep.dropLast &&
              (match cur.getLast?, ep.getLast? with
               | some a, some b => decide (a < b)
               | _, _ => false)
          else false)

/-- `hash_text`: sha256 of the stripped text, modelled as the stripped text
itself (no-collision idealisation). -/
def hash_text (s : String) : String :=
  pyStrip s

/-! ### Line merging (`heuristic_join_lines`, lines 653-722) -/

def bulletChars : List Char :=
  ['-', '*', '•', '⦁', '●', '∙', '·', '‣', '▪', '►', '☐', '・']

/-- The `bullet_or_heading_pattern`
`^\s*([-*•⦁●∙·‣▪►☐・]|[0-9]+\.|\([0-9]+\)|\[[^\]]+\])\s*` as a prefix
matcher. -/
def bulletMatch (l : List Char) : Bool :=
  let r := l.dropWhile pyIsSpace
  (match r with
   | c :: _ => bulletChars.contains c
   | [] => false)
  || classThen Char.isDigit '.' r
  || parenClass '(' Char.isDigit ')' r
  || bracketAny '[' ']' r

def spaces1 (l : List Char) : Option (List Char) := manyOne pyIsSpace l

def digits1 (l : List Char) : Option (List Char) := manyOne Char.isDigit l

/-- `^\[표\s+\d+\s+-\s+페이지\s+\d+\s+{endWord}\]$` as a full match on an
(already stripped) line. -/
def isTableMarker (endWord : String) (line : String) : Bool :=
  (do
    let r1 ← expectStr ['[', '표'] line.data
    let r2 ← spaces1 r1
    let r3 ← digits1 r2
    let r4 ← spaces1 r3
    let r5 ← expectChar '-' r4
    let r6 ← spaces1 r5
    let r7 ← expectStr ("페이지").data r6
    let r8 ← spaces1 r7
    let r9 ← digits1 r8
    let r10 ← spaces1 r9
    let r11 ← expectStr endWord.data r10
    let r12 ← expectChar ']' r11
    some r12.isEmpty).getD false

def flushParagraph (para : List String) : List String :=
  if para.isEmpty then [] else [strJoin " " para]

/-- `heuristic_join_lines(lines)`. -/
def heuristic_join_lines (lines : List String) : String :=
  let acc := lines.foldl
    (fun (a : List String × List String × Bool) rawLine =>
      let (result, para, inTable) := a
      let line := pyStrip rawLine
      if isTableMarker "시작" line then
        (result ++ flushParagraph para ++ [rawLine], [], true)
      else if isTableMarker "끝" line then
        (result ++ [rawLine], para, false)
      else if inTable then
        (result ++ [rawLine], para, true)
      else if bulletMatch line.data then
        (result ++ flushParagraph para ++ [line], [], false)
      else if line = "" then
        (result ++ flushParagraph para ++ [""], [], false)
      else
        (result, para ++ [line], false))
    ([], [], false)
  strJoin "\n" (acc.1 ++ flushParagraph acc.2.1)

/-! ### Section content slicing (lines 931-960)

`current_match_end` is the end of the heading's line; slicing the page
text from there yields a leading empty string when a newline follows
(i.e. when the heading is not the page's last line), reproduced here at
line granularity. -/

/-- Lines from just after the heading's line to the end of its page
(`page_text[current_match_end:].splitlines()`). -/
def linesAfterMatch (page : List String) (lineIdx : ℕ) : List String :=
  if lineIdx + 1 ≥ page.length then []
  else "" :: page.drop (lineIdx + 1)

/-- The lines between the current heading and the next one
(or to the end of the document). -/
def sliceContentLines (pages : List (List String)) (cur : MatchItem)
    (nxt? : Option MatchItem) : List String :=
  let page := pages.getD cur.pageIdx []
  match nxt? with
  | some nxt =>
    if nxt.pageIdx = cur.pageIdx then
      if nxt.lineIdx ≤ cur.lineIdx then []
      else "" :: (page.drop (cur.lineIdx + 1)).take (nxt.lineIdx - cur.lineIdx - 1)
    else
      linesAfterMatch page cur.lineIdx
        ++ ((pages.drop (cur.pageIdx + 1)).take
              (nxt.pageIdx - cur.pageIdx - 1)).flatten
        ++ (pages.getD nxt.pageIdx []).take nxt.lineIdx
  | none =>
    linesAfterMatch page cur.lineIdx ++ (pages.drop (cur.pageIdx + 1)).flatten

/-! ### Section building (lines 819-1178)

The loop state of part 4/5 of `split_pdf_by_section_headings`; Python sets
are modelled as duplicate-free lists with `setInsert`, the
`section_hierarchy` dict as a depth-sorted association list, and each
normalized section-number string (`"제 N 장"`, `"첨부 N"`, `"N.M..."`) by
the `HeadKind` it is in bijection with.  `continue` is modelled by
`Sum.inl` (finish this item with the given state); `Sum.inr` falls
through. -/

structure SplitSection where
  title : String
  section_id : HeadKind
  content : String
  start_page : ℕ
  section_hierarchy : List (ℕ × HeadKind × String)
  document_title : Option String
  deriving DecidableEq, Repr

structure BuildState where
  sections : List SplitSection
  section_hierarchy : List (ℕ × HeadKind × String)
  seen_section_numbers : List HeadKind
  collect : Bool
  last_valid_number : Option (List ℕ)
  merged_out_of_order : List HeadKind
  merged_content_cache : List String
  expecting_next_subsection : Bool
  expected_chapter_num : Option ℕ
  in_appendix_mode : Bool
  last_appendix_num : ℕ
  current_chapter_sections : List String
  deriving DecidableEq, Repr

def initBuildState : BuildState :=
  ⟨[], [], [], false, none, [], [], false, none, false, 0, []⟩

def setInsert {α : Type} [BEq α] (x : α) (l : List α) : List α :=
  if l.contains x then l else x :: l

def appendToLast (ss : List SplitSection) (suffix : String) : List SplitSection :=
  match ss.getLast? with
  | none => ss
  | some last => ss.dropLast ++ [{ last with content := last.content ++ suffix }]

def hierSet (h : List (ℕ × HeadKind × String)) (depth : ℕ)
    (v : HeadKind × String) : List (ℕ × HeadKind × String) :=
  (h.filter (fun e => e.1 < depth)) ++ [(depth, v)]

def hierGet (h : List (ℕ × HeadKind × String)) (d : ℕ) :
    Option (HeadKind × String) :=
  (h.find? (fun e => e.1 == d)).map (fun e => e.2)

def dashRule : String :=
  ⟨List.replicate 50 '─'⟩

/-- Lines 1143-1163: the breadcrumb tree header. -/
def treeHeader (documentTitle : Option String)
    (h : List (ℕ × HeadKind × String)) (depth : ℕ) : String :=
  let docPart := match documentTitle with
    | some t => ["📄 " ++ t]
    | none => []
  let levels := (h.filter (fun e => e.1 ≤ depth)).map (fun e =>
    let indent : String := ⟨List.replicate (2 * e.1) ' '⟩
    if e.1 = depth then indent ++ "▶ " ++ e.2.2
    else indent ++ "▷ " ++ e.2.2)
  strJoin "\n" (docPart ++ levels)

/-- `section_title_counts` lookup: the number of matches whose normalized
section number equals that of `kind`. -/
def countTitle (ms : List MatchItem) (kind : HeadKind) : ℕ :=
  ms.countP (fun m => m.kind == kind)

/-- `merge_out_of_order_section` (lines 902-913): append the out-of-order
heading and body to the previous section unless the content hash is
already cached; returns whether the merge happened. -/
def merge_out_of_order_section (st : BuildState) (titleRaw content : String)
    (kind : HeadKind) : Bool × BuildState :=
  let h := hash_text content
  if ¬ st.sections.isEmpty ∧ ¬ st.merged_content_cache.contains h then
    (true,
     { st with
        sections := appendToLast st.sections
          ("\n\n" ++ titleRaw ++ "\n" ++ content),
        merged_content_cache := setInsert h st.merged_content_cache,
        merged_out_of_order := setInsert kind st.merged_out_of_order })
  else (false, st)

/-- Lines 1014-1037: special handling after `제 N 장`. -/
def expectingBlock (st : BuildState) (pathList : List ℕ) (kind : HeadKind)
    (titleRaw content : String) : Sum BuildState BuildState :=
  match st.expected_chapter_num with
  | none => Sum.inr st
  | some ec =>
    if ¬ st.expecting_next_subsection then Sum.inr st
    else if pathList.length ≥ 2 ∧ pathList.headD 0 = ec ∧
        pathList.getD 1 0 = 1 then
      Sum.inr
        { st with
            expecting_next_subsection := false,
            last_valid_number := some pathList,
            current_chapter_sections :=
              setInsert (pathKey pathList) st.current_chapter_sections }
    else if pathList.length ≥ 1 ∧ pathList.headD 0 = ec then
      if is_out_of_order pathList (some ec) st.current_chapter_sections then
        let r := merge_out_of_order_section st titleRaw content kind
        if r.1 then Sum.inl r.2 else Sum.inr st
      else
        Sum.inr
          { st with
              expecting_next_subsection := false,
              last_valid_number := some pathList,
              current_chapter_sections :=
                setInsert (pathKey pathList) st.current_chapter_sections }
    else Sum.inl st

/-- Lines 1039-1044: out-of-order check within the current chapter. -/
def outOfOrderBlock (st : BuildState) (pathList : List ℕ) (kind : HeadKind)
    (titleRaw content : String) : Sum BuildState BuildState :=
  match st.expected_chapter_num with
  | none => Sum.inr st
  | some ec =>
    if pathList.length ≥ 1 ∧ pathList.headD 0 = ec then
      if is_out_of_order pathList (some ec) st.current_chapter_sections then
        let r := merge_out_of_order_section st titleRaw content kind
        if r.1 then Sum.inl r.2 else Sum.inr st
      else Sum.inr st
    else Sum.inr st

/-- Lines 1046-1055: numeric sections under top-level 3 deeper than 2
levels are always merged (or dropped as duplicates). -/
def threeXBlock (st : BuildState) (pathList : List ℕ) (content : String) :
    Sum BuildState BuildState :=
  if pathList.headD 0 = 3 ∧ pathList.length > 2 then
    Sum.inl
      (if ¬ st.sections.isEmpty ∧
          ¬ st.merged_content_cache.contains (hash_text content) then
        { st with
            sections := appendToLast st.sections ("\n\n" ++ content),
            merged_content_cache :=
              setInsert (hash_text content) st.merged_content_cache }
      else st)
  else Sum.inr st

/-- Lines 1100-1176: mark the heading as seen, update `last_valid_number`
and the hierarchy, possibly drop an empty deep section, and append the
final section with its breadcrumb tree header. -/
def acceptSection (documentTitle : Option String) (st : BuildState)
    (kind : HeadKind) (titleRaw content : String) (pageIdx : ℕ)
    (isKorean isAppendix : Bool) (pathList : List ℕ) : BuildState :=
  let st1 := { st with
    seen_section_numbers := setInsert kind st.seen_section_numbers }
  let st2 :=
    if ¬ isKorean ∧ ¬ isAppendix then
      { st1 with
          last_valid_number := some pathList,
          current_chapter_sections :=
            setInsert (pathKey pathList) st1.current_chapter_sections }
    else st1
  let depth := if isKorean ∨ isAppendix then 0 else pathList.length
  let hier := hierSet st2.section_hierarchy depth (kind, titleRaw)
  let st3 := { st2 with section_hierarchy := hier }
  let displayTitle :=
    if depth > 1 then
      match hierGet hier (depth - 1) with
      | some pr => pr.2
      | none => titleRaw
    else titleRaw
  if (pyStrip content).length < 1 ∧ ¬ isKorean ∧ ¬ isAppendix ∧
      pathList.length ≥ 3 then st3
  else
    let tree := treeHeader documentTitle hier depth
    let fullContent := tree ++ "\n" ++ dashRule ++ "\n\n" ++ titleRaw ++ "\n"
      ++ pyStrip content
    { st3 with
        sections := st3.sections ++
          [⟨displayTitle, kind, pyStrip fullContent, pageIdx + 1, hier,
            documentTitle⟩] }

/-- Lines 1057-1098 followed by the acceptance block: the common tail for
numeric and appendix headings (`is_korean_chapter` is false here). -/
def numericTail (documentTitle : Option String) (ms : List MatchItem)
    (st : BuildState) (kind : HeadKind) (pathList : List ℕ)
    (isAppendix : Bool) (appendixNum : ℕ) (titleRaw content : String)
    (pageIdx : ℕ) : BuildState :=
  if ¬ st.collect then st
  else
    let ordered : Option BuildState :=
      if isAppendix then none
      else
        match st.last_valid_number with
        | none => none
        | some lv =>
          if is_strictly_next lv pathList st.expected_chapter_num
              st.current_chapter_sections then none
          else
            some
              (if countTitle ms kind > 1 then st
               else if st.seen_section_numbers.contains kind then st
               else if st.merged_out_of_order.contains kind then st
               else if st.sections.isEmpty then st
               else
                 let mergedText := titleRaw ++ "\n" ++ content
                 let h := hash_text mergedText
                 if st.merged_content_cache.contains h then st
                 else
                   { st with
                      sections := appendToLast st.sections
                        ("\n\n" ++ mergedText),
                      merged_out_of_order :=
                        setInsert kind st.merged_out_of_order,
                      merged_content_cache :=
                        setInsert h st.merged_content_cache,
                      seen_section_numbers :=
                        setInsert kind st.seen_section_numbers })
    match ordered with
    | some st' => st'
    | none =>
      let st6 :=
        if isAppendix ∧ st.in_appendix_mode then
          { st with last_appendix_num := appendixNum }
        else st
      acceptSection documentTitle st6 kind titleRaw content pageIdx false
        isAppendix pathList

/-- The common lines 1014-1055 (expecting / out-of-order / 3.x), then the
tail. -/
def numericFlow (documentTitle : Option String) (ms : List MatchItem)
    (st : BuildState) (kind : HeadKind) (pathList : List ℕ)
    (isAppendix : Bool) (appendixNum : ℕ) (titleRaw content : String)
    (pageIdx : ℕ) : BuildState :=
  match expectingBlock st pathList kind titleRaw content with
  | Sum.inl stDone => stDone
  | Sum.inr st1 =>
    match outOfOrderBlock st1 pathList kind titleRaw content with
    | Sum.inl stDone => stDone
    | Sum.inr st2 =>
      match threeXBlock st2 pathList content with
      | Sum.inl stDone => stDone
      | Sum.inr st3 =>
        numericTail documentTitle ms st3 kind pathList isAppendix
          appendixNum titleRaw content pageIdx

/-- One iteration of the section-building loop (lines 922-1176) for the
match `item`, with `rest` the remaining matches (`matches[idx+1:]`). -/
def buildStep (pages : List (List String)) (documentTitle : Option String)
    (ms : List MatchItem) (st : BuildState) (item : MatchItem)
    (rest : List MatchItem) : BuildState :=
  let titleRaw := item.titleRaw
  let content := heuristic_join_lines (sliceContentLines pages item rest.head?)
  match item.kind with
  | HeadKind.chapter n =>
    let st1 := if n = 1 then { st with collect := true } else st
    let st2 :=
      if st1.collect then
        { st1 with
            expecting_next_subsection := true,
            expected_chapter_num := some n,
            last_valid_number := none,
            in_appendix_mode := false,
            current_chapter_sections := [] }
      else st1
    if ¬ st2.collect then st2
    else
      acceptSection documentTitle st2 (HeadKind.chapter n) titleRaw content
        item.pageIdx true false [n]
  | HeadKind.appendix n =>
    if st.collect &&
        (match st.expected_chapter_num with
         | some c => decide (c ≥ 6)
         | none => false) then
      let st1 := { st with
        in_appendix_mode := true,
        last_appendix_num := n,
        expecting_next_subsection := false }
      numericFlow documentTitle ms st1 (HeadKind.appendix n) [999, n] true n
        titleRaw content item.pageIdx
    else st
  | HeadKind.numeric path =>
    numericFlow documentTitle ms st (HeadKind.numeric path) path false 0
      titleRaw content item.pageIdx

def buildGo (pages : List (List String)) (documentTitle : Option String)
    (ms : List MatchItem) : BuildState → List MatchItem → BuildState
  | st, [] => st
  | st, m :: rest =>
    buildGo pages documentTitle ms (buildStep pages documentTitle ms st m rest)
      rest

/-- Parts 4-5 of `split_pdf_by_section_headings`: build the section list
from a match list. -/
def buildSections (pages : List (List String))
    (documentTitle : Option String) (ms : List MatchItem) :
    List SplitSection :=
  (buildGo pages documentTitle ms initBuildState ms).sections

/-- The full splitter: scan, then build. -/
def split_pdf_by_section_headings (pages : List (List String))
    (documentTitle : Option String) : List SplitSection :=
  buildSections pages documentTitle (scanMatches pages)

/-! ### The specification's successor relation

`specSuccessor prev cur` is written from the specification's words, not
from the code: a new heading number is strictly next if it "increments the
last digit at the same depth, or extends one level deeper starting at 1,
or increments an ancestor level while resetting descendant levels to 1".
It is used to state claim C4 and compare it with the code's
`is_strictly_next`. -/

def specSuccessor (prev cur : List ℕ) : Prop :=
  (cur.length = prev.length ∧ prev ≠ [] ∧ cur.dropLast = prev.dropLast ∧
    cur.getLast? = prev.getLast?.map (· + 1))
  ∨ (cur.length = prev.length + 1 ∧ cur.dropLast = prev ∧
      cur.getLast? = some 1)
  ∨ (∃ i, i < prev.length ∧ i < cur.length ∧ cur.take i = prev.take i ∧
      cur[i]? = prev[i]?.map (· + 1) ∧
      ∀ j, i < j → j < cur.length → cur[j]? = some 1)

theorem all_one_getElem? (l : List ℕ) (h : l.all (fun x => x = 1) = true) :
    ∀ j, j < l.length → l[j]? = some 1 := by
  intro j hj
  rw [List.getElem?_eq_getElem hj]
  have := List.all_eq_true.mp h (l[j]) (List.getElem_mem hj)
  simpa using this

theorem strictLoop_spec :
    ∀ prev cur : List ℕ, strictLoop prev cur = true →
      ∃ i, i < prev.length ∧ i < cur.length ∧ cur.take i = prev.take i ∧
        cur[i]? = prev[i]?.map (· + 1) ∧
        ∀ j, i < j → j < cur.length → cur[j]? = some 1 := by
  intro prev
  induction prev with
  | nil => intro cur h; simp [strictLoop] at h
  | cons p ps ih =>
    intro cur h
    cases cur with
    | nil => simp [strictLoop] at h
    | cons c cs =>
      rw [strictLoop] at h
      by_cases hcp : c = p
      · rw [if_pos hcp] at h
        obtain ⟨i, hi1, hi2, htake, hget, hall⟩ := ih cs h
        refine ⟨i + 1, by simpa using hi1, by simpa using hi2, ?_, ?_, ?_⟩
        · simp [List.take_succ_cons, htake, hcp]
        · simpa using hget
        · intro j hj1 hj2
          cases j with
          | zero => omega
          | succ j' =>
            simp only [List.getElem?_cons_succ]
            exact hall j' (by omega) (by simpa using hj2)
      · rw [if_neg hcp] at h
        by_cases hsucc : c = p + 1
        · rw [if_pos hsucc] at h
          refine ⟨0, by simp, by simp, by simp, by simp [hsucc], ?_⟩
          intro j hj1 hj2
          cases j with
          | zero => omega
          | succ j' =>
            simp only [List.getElem?_cons_succ]
            exact all_one_getElem? cs h j' (by simpa using hj2)
        · rw [if_neg hsucc] at h
          exact absurd h (by simp)

theorem strictNextNumeric_cases (lv p : List ℕ)
    (h : strictNextNumeric lv p = true) : lv = [] ∨ specSuccessor lv p := by
  rw [strictNextNumeric] at h
  by_cases hemp : lv.isEmpty
  · left
    simpa using hemp
  · rw [if_neg hemp] at h
    right
    have hlvne : lv ≠ [] := by simpa using hemp
    by_cases hlen : p.length = lv.length
    · rw [if_pos hlen] at h
      rw [Bool.and_eq_true] at h
      obtain ⟨hdl, hlast⟩ := h
      left
      refine ⟨hlen, hlvne, by simpa using hdl, ?_⟩
      rcases hgl : lv.getLast? with _ | a
      · exfalso
        exact hlvne (List.getLast?_eq_none_iff.mp hgl)
      · rw [hgl] at hlast
        rcases hgp : p.getLast? with _ | b
        · rw [hgp] at hlast
          simp at hlast
        · rw [hgp] at hlast
          simp only [beq_iff_eq] at hlast
          simp [hlast]
    · rw [if_neg hlen] at h
      by_cases hlen2 : p.length = lv.length + 1
      · rw [if_pos hlen2] at h
        rw [Bool.and_eq_true] at h
        right
        left
        exact ⟨hlen2, by simpa using h.1, by simpa using h.2⟩
      · rw [if_neg hlen2] at h
        right
        right
        exact strictLoop_spec lv p h

theorem isStrictlyNext_cases (lv p : List ℕ) (ch : Option ℕ)
    (secs : List String) (h : is_strictly_next lv p ch secs = true) :
    (∃ c, ch = some c ∧ p ≠ [] ∧ p.headD 0 = c ∧
      secs.contains (pathKey p) = false)
    ∨ lv = [] ∨ specSuccessor lv p := by
  rcases ch with _ | c
  · rcases p with _ | ⟨c0, rest⟩
    · simp only [is_strictly_next] at h
      exact Or.inr (strictNextNumeric_cases lv [] h)
    · simp only [is_strictly_next] at h
      exact Or.inr (strictNextNumeric_cases lv (c0 :: rest) h)
  · rcases p with _ | ⟨c0, rest⟩
    · simp only [is_strictly_next] at h
      exact Or.inr (strictNextNumeric_cases lv [] h)
    · simp only [is_strictly_next] at h
      by_cases hc0 : c0 = c
      · rw [if_pos hc0] at h
        left
        refine ⟨c, rfl, by simp, by simp [hc0], ?_⟩
        simpa using h
      · rw [if_neg hc0] at h
        exact Or.inr (strictNextNumeric_cases lv (c0 :: rest) h)

theorem setInsert_contains {α : Type} [BEq α] [LawfulBEq α] (x : α)
    (l : List α) : (setInsert x l).contains x = true := by
  simp only [setInsert]
  by_cases h : l.contains x
  · rw [if_pos h]
    exact h
  · rw [if_neg h]
    simp

theorem appendToLast_length (ss : List SplitSection) (suffix : String) :
    (appendToLast ss suffix).length = ss.length := by
  rw [appendToLast]
  rcases hl : ss.getLast? with _ | last
  · rfl
  · have hne : ss ≠ [] := by
      intro hcon
      rw [hcon] at hl
      simp at hl
    simp only [List.length_append, List.length_dropLast, List.length_singleton]
    have := List.length_pos.mpr hne
    omega

theorem merge_sections_length (st : BuildState) (t c : String) (k : HeadKind) :
    (merge_out_of_order_section st t c k).2.sections.length =
      st.sections.length := by
  rw [merge_out_of_order_section]
  split
  · simp [appendToLast_length]
  · rfl

theorem merge_noop_of_empty (st : BuildState) (t c : String) (k : HeadKind)
    (h : st.sections = []) :
    merge_out_of_order_section st t c k = (false, st) := by
  simp [merge_out_of_order_section, h]

/-! ### Claim C1: the collecting trigger -/

/-- States in which nothing has been collected: no sections and the
`collect` flag still off. -/
def NoSec (st : BuildState) : Prop :=
  st.sections = [] ∧ st.collect = false

theorem expectingBlock_noSec (st : BuildState) (p : List ℕ) (k : HeadKind)
    (t c : String) (h : NoSec st) :
    ∀ st', (expectingBlock st p k t c = Sum.inl st' ∨
            expectingBlock st p k t c = Sum.inr st') → NoSec st' := by
  intro st' hst'
  obtain ⟨hs, hc⟩ := h
  rw [expectingBlock] at hst'
  repeat' split at hst'
  all_goals
    rcases hst' with hst' | hst' <;>
      first
        | (injection hst' with h2; subst h2; exact ⟨hs, hc⟩)
        | simp_all [NoSec, merge_noop_of_empty st t c k hs]

theorem outOfOrderBlock_noSec (st : BuildState) (p : List ℕ) (k : HeadKind)
    (t c : String) (h : NoSec st) :
    ∀ st', (outOfOrderBlock st p k t c = Sum.inl st' ∨
            outOfOrderBlock st p k t c = Sum.inr st') → NoSec st' := by
  intro st' hst'
  obtain ⟨hs, hc⟩ := h
  rw [outOfOrderBlock] at hst'
  repeat' split at hst'
  all_goals
    rcases hst' with hst' | hst' <;>
      first
        | (injection hst' with h2; subst h2; exact ⟨hs, hc⟩)
        | simp_all [NoSec, merge_noop_of_empty st t c k hs]

theorem threeXBlock_noSec (st : BuildState) (p : List ℕ) (c : String)
    (h : NoSec st) :
    ∀ st', (threeXBlock st p c = Sum.inl st' ∨
            threeXBlock st p c = Sum.inr st') → NoSec st' := by
  intro st' hst'
  obtain ⟨hs, hc⟩ := h
  rw [threeXBlock] at hst'
  repeat' split at hst'
  all_goals
    rcases hst' with hst' | hst' <;>
      first
        | (injection hst' with h2; subst h2; exact ⟨hs, hc⟩)
        | simp_all [NoSec]

theorem numericTail_noSec (dt : Option String) (ms : List MatchItem)
    (st : BuildState) (k : HeadKind) (p : List ℕ) (iA : Bool) (an : ℕ)
    (t c : String) (pg : ℕ) (h : NoSec st) :
    NoSec (numericTail dt ms st k p iA an t c pg) := by
  rw [numericTail]
  rw [if_pos (by simp [h.2])]
  exact h

theorem numericFlow_noSec (dt : Option String) (ms : List MatchItem)
    (st : BuildState) (k : HeadKind) (p : List ℕ) (iA : Bool) (an : ℕ)
    (t c : String) (pg : ℕ) (h : NoSec st) :
    NoSec (numericFlow dt ms st k p iA an t c pg) := by
  rw [numericFlow]
  split
  next stD hE =>
    exact expectingBlock_noSec st p k t c h stD (Or.inl hE)
  next st1 hE =>
    have h1 := expectingBlock_noSec st p k t c h st1 (Or.inr hE)
    split
    next stD hO =>
      exact outOfOrderBlock_noSec st1 p k t c h1 stD (Or.inl hO)
    next st2 hO =>
      have h2 := outOfOrderBlock_noSec st1 p k t c h1 st2 (Or.inr hO)
      split
      next stD hT =>
        exact threeXBlock_noSec st2 p c h2 stD (Or.inl hT)
      next st3 hT =>
        have h3 := threeXBlock_noSec st2 p c h2 st3 (Or.inr hT)
        exact numericTail_noSec dt ms st3 k p iA an t c pg h3

theorem buildStep_noSec (pages : List (List String)) (dt : Option String)
    (ms : List MatchItem) (st : BuildState) (item : MatchItem)
    (rest : List MatchItem) (hk : item.kind ≠ HeadKind.chapter 1)
    (h : NoSec st) : NoSec (buildStep pages dt ms st item rest) := by
  rw [buildStep]
  rcases hkind : item.kind with n | n | path
  · -- chapter n with n ≠ 1: collect never turns on, state passes through
    have hn : n ≠ 1 := by
      intro hcon
      rw [hcon] at hkind
      exact hk hkind
    repeat' split
    all_goals simp_all [NoSec]
  · -- appendix: with collect off the guard is false and the state is kept
    repeat' split
    all_goals simp_all [NoSec]
  · -- numeric heading: the whole step is the numeric flow
    split
    next heq2 => exact absurd heq2 (by simp)
    next heq2 => exact absurd heq2 (by simp)
    next a heq2 =>
      injection heq2 with h2
      subst h2
      exact numericFlow_noSec dt ms st (HeadKind.numeric path) path false 0
        _ _ _ h

theorem buildGo_noSec (pages : List (List String)) (dt : Option String)
    (ms : List MatchItem) :
    ∀ (items : List MatchItem) (st : BuildState), NoSec st →
      (∀ m ∈ items, m.kind ≠ HeadKind.chapter 1) →
      NoSec (buildGo pages dt ms st items) := by
  intro items
  induction items with
  | nil => intro st h _; exact h
  | cons m rest ih =>
    intro st h hall
    rw [buildGo]
    exact ih (buildStep pages dt ms st m rest)
      (buildStep_noSec pages dt ms st m rest (hall m (by simp)) h)
      (fun m' hm' => hall m' (by simp [hm']))

/-- Claim C1 (amended): the splitter's not-collecting → collecting
transition happens only at a Korean chapter-1 heading (`제 1 장`) that
survives match collection — never at heading `1.1.1`, which the code does
not treat as a trigger — and before (or without) such a trigger every
heading match is ignored: a match list containing no chapter-1 item
produces no Section at all.  (The scan additionally drops the document's
first `제 1 장` match when it is the first Korean-chapter match, so a
document whose only `제 1 장` is that first occurrence also yields no
sections; see the counterexample.) -/
theorem C1_collect_trigger_amended (pages : List (List String))
    (documentTitle : Option String) (ms : List MatchItem)
    (hnoch1 : ∀ m ∈ ms, m.kind ≠ HeadKind.chapter 1) :
    buildSections pages documentTitle ms = [] := by
  have h := buildGo_noSec pages documentTitle ms ms initBuildState
    ⟨rfl, rfl⟩ hnoch1
  exact h.1

/-- Witness for C1 (amended): a match list with one numeric heading
(`1.1.1`, the claimed trigger) produces no sections. -/
theorem C1_collect_trigger_amended_witness :
    buildSections [["1.1.1 알파"]] none
      [⟨HeadKind.numeric [1, 1, 1], "1.1.1 알파", 0, 0⟩] = [] :=
  C1_collect_trigger_amended [["1.1.1 알파"]] none
    [⟨HeadKind.numeric [1, 1, 1], "1.1.1 알파", 0, 0⟩] (by decide)

/-- Claim C1, counterexample: (i) a document whose headings are
`1.1.1`/`1.1.2` — by the claim, the splitter transitions to collecting at
the first `1.1.1` and would emit its sections — yields no sections at all;
(ii) a document whose first heading is its only `제 1 장` — by the claim,
the transition happens at this first occurrence — also yields no sections,
because match collection drops the first `제 1 장`. -/
theorem C1_collect_trigger_counterexample :
    split_pdf_by_section_headings
        [["1.1.1 알파", "내용"], ["1.1.2 베타", "내용 둘"]] none = []
    ∧ split_pdf_by_section_headings
        [["제 1 장", "개요 내용"], ["1.1 알파"]] none = [] := by
  constructor
  · decide
  · decide

/-- Claim C3, counterexample: on the spec's scenario document — numeric
headings `1.1.1`, `1.1.2`, `1.1.4` with body text on three different pages
— the splitter returns 0 sections, not the claimed 2 (and hence no second
section whose content contains `1.1.4`). -/
theorem C3_skip_scenario_counterexample :
    split_pdf_by_section_headings
        [["1.1.1 알파", "본문 알파"], ["1.1.2 베타", "본문 베타"],
         ["1.1.4 감마", "본문 감마"]] none = []
    ∧ (split_pdf_by_section_headings
        [["1.1.1 알파", "본문 알파"], ["1.1.2 베타", "본문 베타"],
         ["1.1.4 감마", "본문 감마"]] none).length ≠ 2 := by
  constructor
  · decide
  · decide

/-- Claim C3 (amended): on the scenario document with numeric headings
`1.1.1`, `1.1.2`, `1.1.4` on three different pages, the heading-based
splitter returns exactly 0 sections: the collecting state is only ever
entered at a `제 1 장` heading, so a document with only numeric headings
produces the empty list (and the caller must fall back to the token-window
splitter). -/
theorem C3_skip_scenario_amended :
    (split_pdf_by_section_headings
        [["1.1.1 알파", "본문 알파"], ["1.1.2 베타", "본문 베타"],
         ["1.1.4 감마", "본문 감마"]] none).length = 0 := by
  decide

/-! ### Claim C4: heading monotonicity -/

theorem numericTail_len_of_not_next (dt : Option String)
    (ms : List MatchItem) (st : BuildState) (k : HeadKind) (p : List ℕ)
    (an : ℕ) (t c : String) (pg : ℕ) (lv : List ℕ)
    (hlv : st.last_valid_number = some lv)
    (hsn : is_strictly_next lv p st.expected_chapter_num
      st.current_chapter_sections = false) :
    (numericTail dt ms st k p false an t c pg).sections.length
      = st.sections.length := by
  rw [numericTail]
  split
  · rfl
  · simp only [hlv, hsn, Bool.false_eq_true, if_false]
    repeat' split
    all_goals simp [appendToLast_length]

/-- Claim C4 (amended): when the acceptance tail of the section-building
loop (lines 1057-1104) appends a new section for a numeric heading `path`,
then either no previous valid number was recorded, or the recorded number
`lv` satisfies the code's `is_strictly_next`, which holds in exactly three
situations: `lv` is empty, or `path` is a strict successor of `lv` under
the specification's successor relation (`specSuccessor`), or the
chapter-subsection bypass fires — `path` starts with the current expected
chapter number and its dotted key has not yet been seen in the current
chapter — which accepts numeric paths that are *not* successors (see the
counterexample). -/
theorem C4_heading_monotonicity_amended (dt : Option String)
    (ms : List MatchItem) (st : BuildState) (path : List ℕ)
    (t c : String) (pg : ℕ) (s : SplitSection)
    (h : (numericTail dt ms st (HeadKind.numeric path) path false 0 t c
        pg).sections = st.sections ++ [s]) :
    st.last_valid_number = none ∨
    ∃ lv, st.last_valid_number = some lv ∧
      (lv = [] ∨ specSuccessor lv path ∨
        (∃ ec, st.expected_chapter_num = some ec ∧ path ≠ [] ∧
          path.headD 0 = ec ∧
          st.current_chapter_sections.contains (pathKey path) = false)) := by
  rcases hlv : st.last_valid_number with _ | lv
  · exact Or.inl rfl
  · right
    refine ⟨lv, rfl, ?_⟩
    by_cases hsn : is_strictly_next lv path st.expected_chapter_num
        st.current_chapter_sections = true
    · rcases isStrictlyNext_cases lv path _ _ hsn with hbyp | hnil | hspec
      · exact Or.inr (Or.inr hbyp)
      · exact Or.inl hnil
      · exact Or.inr (Or.inl hspec)
    · exfalso
      have hsn' : is_strictly_next lv path st.expected_chapter_num
          st.current_chapter_sections = false := by
        simpa using hsn
      have hlen := numericTail_len_of_not_next dt ms st
        (HeadKind.numeric path) path 0 t c pg lv hlv hsn'
      rw [h] at hlen
      simp at hlen

/-- A collecting state with one chapter section already emitted,
`last_valid_number = [1, 1]` and expected chapter 1: the setting in which
the acceptance tail accepts `1.5` through the chapter-subsection bypass. -/
def c4WitnessState : BuildState :=
  { initBuildState with
      collect := true
      sections := [⟨"t", HeadKind.chapter 1, "c", 1, [], none⟩]
      last_valid_number := some [1, 1]
      expected_chapter_num := some 1 }

/-- The section the acceptance tail appends for heading `1.5 베타` from
`c4WitnessState`. -/
def c4WitnessSection : SplitSection :=
  ⟨"1.5 베타", HeadKind.numeric [1, 5],
    "▶ 1.5 베타\n" ++ dashRule ++ "\n\n1.5 베타\n본문", 4,
    [(2, (HeadKind.numeric [1, 5], "1.5 베타"))], none⟩

/-- Witness for C4 (amended): from `c4WitnessState`, heading `1.5` is
accepted as a new section even though `last_valid_number` is `[1, 1]`. -/
theorem C4_heading_monotonicity_amended_witness :
    c4WitnessState.last_valid_number = none ∨
    ∃ lv, c4WitnessState.last_valid_number = some lv ∧
      (lv = [] ∨ specSuccessor lv [1, 5] ∨
        (∃ ec, c4WitnessState.expected_chapter_num = some ec ∧
          ([1, 5] : List ℕ) ≠ [] ∧ ([1, 5] : List ℕ).headD 0 = ec ∧
          c4WitnessState.current_chapter_sections.contains
            (pathKey [1, 5]) = false)) :=
  C4_heading_monotonicity_amended none [] c4WitnessState [1, 5] "1.5 베타"
    "본문" 3 c4WitnessSection (by decide)

/-- Claim C4, counterexample: on the document whose pages carry `제 1 장`
(twice), `1.1`, `1.5`, `1.9`, the splitter returns sections with ids
chapter 1, `[1, 5]`, `[1, 9]` — two consecutively accepted numeric
sections — yet `[1, 9]` is not a strict successor of `[1, 5]` under the
specification's successor relation (its last digit jumps from 5 to 9): the
chapter-subsection bypass in `is_strictly_next` accepts any unseen path
starting with the current chapter number. -/
theorem C4_heading_monotonicity_counterexample :
    ((split_pdf_by_section_headings
        [["제 1 장"], ["제 1 장"], ["1.1 알파"], ["1.5 베타"], ["1.9 감마"]]
        none).map (fun s => s.section_id)
      = [HeadKind.chapter 1, HeadKind.numeric [1, 5],
         HeadKind.numeric [1, 9]])
    ∧ ¬ specSuccessor [1, 5] [1, 9] := by
  constructor
  · decide
  · intro hs
    rcases hs with ⟨_, _, _, hlast⟩ | ⟨hlen, _, _⟩ | ⟨i, hi, _, _, hgi, _⟩
    · simp at hlast
    · simp at hlen
    · have hi2 : i < 2 := by simpa using hi
      interval_cases i <;> simp_all

end Haystack
